import Mathlib

/-! micasa: schema migrations and the SQLite user repository.

A shallow embedding of `internal/migrate/migrate.go`, `internal/models/user.go`,
`internal/repo/repos.go` and `internal/repo/user/sqlite/userrepo.go`.

The SQL database is not part of the repository.  It is modelled by an explicit state
(the rows of the `Migrations` and `Users` tables) that every function receives and
returns, and by the behaviour of the storage engine on each SQL text the source sends
to it.  Everything the source leaves to a library (`strings.ToLower`, `uuid.NewV4`,
the two functions of `simple-scrypt`, the clock of the storage engine, the meaning of an
arbitrary migration query) is a parameter of the functions below.
-/

namespace Micasa

/-- The error value a `database/sql` call hands back, identified by its text. -/
structure NativeError where
  msg : String
  deriving DecidableEq, Repr

/-! ## Package `migrate` -/

namespace Migrate

/-- The struct `dbMigration` of `migrate.go`. -/
structure dbMigration where
  Version : Nat
  Queries : List String
  deriving DecidableEq, Repr

/-- One row of the table `Migrations (version, success, PRIMARY KEY(version))`. -/
structure MigrationRecord where
  version : Nat
  success : Bool
  deriving DecidableEq, Repr

/-- The database as the migration code sees it: the `Migrations` table (`none` while the
table does not exist) and, in `data`, the rest of the schema and data. -/
structure DB (δ : Type) where
  ledger : Option (List MigrationRecord)
  data : δ

/-- The part of the storage engine that the source does not determine: what a migration
query does to the database (`db.Exec(query)` runs on the database that holds the ledger,
so a query can change the `Migrations` table as well as everything else), and which of
the three ledger statements the engine rejects (read-only medium, lock, full disk). -/
structure Driver (δ : Type) where
  exec : String → DB δ → DB δ × Option NativeError
  createFault : Option NativeError
  lookupFault : Nat → Option NativeError
  writeFault : Nat → Bool → Option NativeError

/-- The database calls of a run, in order, each with its outcome (`ok = false`: the call
returned an error other than `sql.ErrNoRows`). -/
inductive Event where
  | create (ok : Bool)
  | lookup (version : Nat) (ok : Bool)
  | stmt (version : Nat) (index : Nat) (query : String) (ok : Bool)
  | write (version : Nat) (success : Bool) (ok : Bool)
  deriving DecidableEq, Repr

/-- Whether the call returned without error. -/
def Event.ok : Event → Bool
  | .create ok => ok
  | .lookup _ ok => ok
  | .stmt _ _ _ ok => ok
  | .write _ _ ok => ok

/-- Whether the call executed a query of a migration. -/
def Event.isStmt : Event → Bool
  | .stmt _ _ _ _ => true
  | _ => false

/-- Whether the call wrote to the `Migrations` table. -/
def Event.isWrite : Event → Bool
  | .write _ _ _ => true
  | _ => false

/-- The version of the migration whose query the call executed. -/
def Event.stmtVersion : Event → Option Nat
  | .stmt v _ _ _ => some v
  | _ => none

/-- The version a database call is about (`none` for the creation of the table). -/
def Event.version : Event → Option Nat
  | .create _ => none
  | .lookup v _ => some v
  | .stmt v _ _ _ => some v
  | .write v _ _ => some v

/-- The query texts executed by a run, in order. -/
def executedQueries : List Event → List String
  | [] => []
  | .stmt _ _ q _ :: t => q :: executedQueries t
  | _ :: t => executedQueries t

/-- What a function of the package returns: the Go `error` (`none` for `nil`), the
database afterwards, and the database calls it made. -/
structure Outcome (δ : Type) where
  err : Option NativeError
  db : DB δ
  trace : List Event

/-- The error of `QueryRow(..).Scan(..)`: `sql.ErrNoRows` or an error of the driver. -/
inductive ScanError where
  | ErrNoRows
  | native (e : NativeError)
  deriving DecidableEq, Repr

/-- The error the engine gives for a statement on a missing `Migrations` table. -/
def noSuchTable : NativeError := ⟨"no such table: Migrations"⟩

/-- `db.QueryRow("SELECT success FROM Migrations WHERE version = $1", version).Scan(&success)`. -/
def querySuccess {δ : Type} (d : Driver δ) (db : DB δ) (version : Nat) : Except ScanError Bool :=
  match d.lookupFault version with
  | some e => .error (.native e)
  | none =>
    match db.ledger with
    | none => .error (.native noSuchTable)
    | some rows =>
      match rows.find? (fun r => r.version == version) with
      | none => .error .ErrNoRows
      | some r => .ok r.success

/-- `db.Exec("REPLACE INTO Migrations(version, success) VALUES($1, b)", version)`: the row
with this primary key, if any, is deleted and the new row is inserted. -/
def replaceInto {δ : Type} (d : Driver δ) (db : DB δ) (version : Nat) (success : Bool) :
    DB δ × Option NativeError :=
  match d.writeFault version success with
  | some e => (db, some e)
  | none =>
    match db.ledger with
    | none => (db, some noSuchTable)
    | some rows =>
      ({ db with ledger := some (rows.filter (fun r => r.version != version) ++ [⟨version, success⟩]) },
        none)

/-- `db.Exec("CREATE TABLE IF NOT EXISTS Migrations (...)")`. -/
def createTable {δ : Type} (d : Driver δ) (db : DB δ) : DB δ × Option NativeError :=
  match d.createFault with
  | some e => (db, some e)
  | none => ({ db with ledger := some (db.ledger.getD []) }, none)

/-- The record of a version in the ledger: `none` when there is none, else its flag. -/
def DB.status {δ : Type} (db : DB δ) (version : Nat) : Option Bool :=
  ((db.ledger.getD []).find? (fun r => r.version == version)).map (fun r => r.success)

/-- The loop `for i, query := range mig.Queries` of `Execute`, from index `i` on: on the
first failing query the failure is written to the ledger (the error of that write is
dropped) and the error of the query is returned. -/
def queryLoop {δ : Type} (d : Driver δ) (version : Nat) : List String → Nat → DB δ → Outcome δ
  | [], _, db => ⟨none, db, []⟩
  | q :: qs, i, db =>
    match d.exec q db with
    | (db', some e) =>
      let w := replaceInto d db' version false
      ⟨some e, w.1, [.stmt version i q false, .write version false w.2.isNone]⟩
    | (db', none) =>
      let r := queryLoop d version qs (i + 1) db'
      { r with trace := .stmt version i q true :: r.trace }

/-- The body of `Execute` under `if !success`. -/
def attempt {δ : Type} (d : Driver δ) (mig : dbMigration) (db : DB δ) : Outcome δ :=
  let r := queryLoop d mig.Version mig.Queries 0 db
  match r.err with
  | some e => ⟨some e, r.db, r.trace⟩
  | none =>
    let w := replaceInto d r.db mig.Version true
    ⟨none, w.1, r.trace ++ [.write mig.Version true w.2.isNone]⟩

/-- `func (mig *dbMigration) Execute(db, log) error`. -/
def Execute {δ : Type} (d : Driver δ) (mig : dbMigration) (db : DB δ) : Outcome δ :=
  match querySuccess d db mig.Version with
  | .error (.native e) => ⟨some e, db, [.lookup mig.Version false]⟩
  | .error .ErrNoRows =>
    let r := attempt d mig db
    { r with trace := .lookup mig.Version true :: r.trace }
  | .ok true => ⟨none, db, [.lookup mig.Version true]⟩
  | .ok false =>
    let r := attempt d mig db
    { r with trace := .lookup mig.Version true :: r.trace }

/-- The loop `for _, mig := range migrations` of `ExecuteMigrationsOnDb`. -/
def executeAll {δ : Type} (d : Driver δ) : List dbMigration → DB δ → Outcome δ
  | [], db => ⟨none, db, []⟩
  | mig :: rest, db =>
    let r := Execute d mig db
    match r.err with
    | some e => ⟨some e, r.db, r.trace⟩
    | none =>
      let r' := executeAll d rest r.db
      { r' with trace := r.trace ++ r'.trace }

/-- `func ExecuteMigrationsOnDb(db, log) error`, with the package variable `migrations`
as an argument. -/
def ExecuteMigrationsOnDb {δ : Type} (d : Driver δ) (migrations : List dbMigration) (db : DB δ) :
    Outcome δ :=
  match createTable d db with
  | (db', some e) => ⟨some e, db', [.create false]⟩
  | (db', none) =>
    let r := executeAll d migrations db'
    { r with trace := .create true :: r.trace }

/-- The value `init` gives to the package variable `migrations`. -/
def migrations : List dbMigration :=
  [ { Version := 1
      Queries :=
        ["CREATE TABLE Users (\n\t\t\t\t\tuserid\tVARCHAR(32) NOT NULL,\n\t\t\t\t\tname\tVARCHAR(64) NOT NULL UNIQUE ON CONFLICT ABORT,\n\t\t\t\t\tpasswordHash\tVARCHAR(128) NOT NULL DEFAULT '',\n\t\t\t\t\tfullName\tVARCHAR(128) NOT NULL DEFAULT '',\n\t\t\t\t\tcreatedAt\tDATETIME NOT NULL DEFAULT CURRENT_TIMESTAMP,\n\t\t\t\t\tupdatedAt\tDATETIME NOT NULL DEFAULT CURRENT_TIMESTAMP,\n\t\t\t\t\tPRIMARY KEY(userid)\n\t\t\t\t);"] } ]

/-- The query leaves the `Migrations` table as it is, whether it succeeds or fails. -/
def LeavesLedger {δ : Type} (d : Driver δ) (q : String) : Prop :=
  ∀ db : DB δ, (d.exec q db).1.ledger = db.ledger

/-- No query of the catalog changes the `Migrations` table. -/
def CatalogLeavesLedger {δ : Type} (d : Driver δ) (cat : List dbMigration) : Prop :=
  ∀ m ∈ cat, ∀ q ∈ m.Queries, LeavesLedger d q

/-- The versions of the catalog are strictly ascending (hence unique). -/
def Ascending (cat : List dbMigration) : Prop :=
  (cat.map (fun m => m.Version)).Pairwise (fun a b => a < b)

/-- What the example engines do with a migration query; `data` lists the queries applied
so far.  The query `BAD` is rejected with `failure`, `DELETE FROM Migrations` removes all
rows of the ledger, a `CREATE TABLE` that was applied before is rejected because the
table exists, and every other query is applied. -/
def sampleExec (failure : NativeError) (q : String) (db : DB (List String)) :
    DB (List String) × Option NativeError :=
  if q = "BAD" then (db, some failure)
  else if q = "DELETE FROM Migrations" then
    match db.ledger with
    | none => (db, some noSuchTable)
    | some _ => ({ db with ledger := some [] }, none)
  else if q ∈ db.data ∧ "CREATE TABLE ".data.isPrefixOf q.data = true then
    (db, some ⟨"table already exists"⟩)
  else ({ db with data := db.data ++ [q] }, none)

/-- A storage engine for the examples: queries as in `sampleExec`, and no ledger statement
is rejected. -/
def sampleDriver : Driver (List String) where
  exec := sampleExec ⟨"syntax error"⟩
  createFault := none
  lookupFault _ := none
  writeFault _ _ := none

/-- The engine of `sampleDriver` when the disk is full at the moment `BAD` is rejected: the
write that is to record the failure is rejected as well. -/
def fullDiskDriver : Driver (List String) where
  exec := sampleExec ⟨"database or disk is full"⟩
  createFault := none
  lookupFault _ := none
  writeFault _ success := if success then none else some ⟨"database or disk is full"⟩

/-- A database without any table. -/
def freshDB : DB (List String) := ⟨none, []⟩

/-- A database with an empty `Migrations` table. -/
def emptyLedgerDB : DB (List String) := ⟨some [], []⟩

/-- A catalog whose queries the sample engine accepts. -/
def goodCatalog : List dbMigration := [⟨1, ["A"]⟩, ⟨2, ["B", "C"]⟩]

/-- A catalog with versions 1, 2, 3 in which the second query of version 2 is rejected. -/
def failingCatalog : List dbMigration := [⟨1, ["A"]⟩, ⟨2, ["B", "BAD", "C"]⟩, ⟨3, ["D"]⟩]

/-- A database whose ledger records version 1 as succeeded and version 2 as failed. -/
def halfwayDB : DB (List String) := ⟨some [⟨1, true⟩, ⟨2, false⟩], ["A", "B"]⟩


/-- The engine of `sampleDriver` while another connection holds the write lock at the
moment of a ledger write: the migration queries are executed and every `REPLACE INTO
Migrations` is rejected. -/
def lockedLedgerDriver : Driver (List String) where
  exec := sampleExec ⟨"syntax error"⟩
  createFault := none
  lookupFault _ := none
  writeFault _ _ := some ⟨"database is locked"⟩

/-- A catalog whose second unit removes the rows of the ledger. -/
def erasingCatalog : List dbMigration := [⟨1, ["CREATE TABLE T"]⟩, ⟨2, ["DELETE FROM Migrations"]⟩]

/-- A catalog with versions 1, 2, 3 whose second unit removes the rows of the ledger and then
fails. -/
def erasingFailingCatalog : List dbMigration :=
  [⟨1, ["A"]⟩, ⟨2, ["DELETE FROM Migrations", "BAD"]⟩, ⟨3, ["D"]⟩]

/-- A database whose ledger records version 1 as succeeded. -/
def migratedDB : DB (List String) := ⟨some [⟨1, true⟩], ["A"]⟩

/-- A catalog with a repeated version and versions out of order; the last unit fails. -/
def unorderedCatalog : List dbMigration := [⟨2, ["B"]⟩, ⟨1, ["A"]⟩, ⟨2, ["C"]⟩, ⟨3, ["BAD"]⟩]

end Migrate

/-! ## Packages `models`, `repo` and `repo/user/sqlite` -/

namespace Repo

/-- The struct `models.User`; `models.UserID` is a string and the two times are kept as the
text the storage engine stores. -/
structure User where
  ID : String
  Name : String
  PasswordHash : String
  FullName : String
  CreatedAt : String
  UpdatedAt : String
  deriving DecidableEq, Repr

/-- The Go `error` values of the repository: the two values of `repos.go`, an error of the
driver, `errors.Wrap(cause, message)` and `fmt.Errorf(message)`. -/
inductive GoError where
  | ErrDuplicate
  | ErrNotExisting
  | native (e : NativeError)
  | wrap (cause : GoError) (message : String)
  | errorf (message : String)
  deriving DecidableEq, Repr

/-- The method `Error()` of an error value. -/
def GoError.Error : GoError → String
  | .ErrDuplicate => "Duplicate record"
  | .ErrNotExisting => "Record does not exist"
  | .native e => e.msg
  | .wrap cause message => message ++ ": " ++ cause.Error
  | .errorf message => message

/-- The function `errors.Cause`: the innermost error of a chain of wraps. -/
def GoError.Cause : GoError → GoError
  | .wrap cause _ => cause.Cause
  | e => e

/-- One row of the table `Users` created by migration 1. -/
structure UserRow where
  userid : String
  name : String
  passwordHash : String
  fullName : String
  createdAt : String
  updatedAt : String
  deriving DecidableEq, Repr

/-- The database behind `UserRepo.db`: the rows of `Users`, or, when the table cannot be
used (it was never created, the file cannot be read), the error with which the engine
rejects every statement on it. -/
inductive Store where
  | unavailable (e : NativeError)
  | table (rows : List UserRow)
  deriving DecidableEq, Repr

/-- The rows of the store (none when the table cannot be used). -/
def Store.rows : Store → List UserRow
  | .unavailable _ => []
  | .table rows => rows

/-- The constraints of the schema: `PRIMARY KEY(userid)` and `name ... UNIQUE`.  Every table
the engine holds satisfies them. -/
def Store.WF (s : Store) : Prop :=
  (s.rows.map (fun r => r.userid)).Nodup ∧ (s.rows.map (fun r => r.name)).Nodup

/-- The function `strings.HasPrefix`. -/
def HasPrefix (s pre : String) : Bool := pre.data.isPrefixOf s.data

/-- The constant `duplicateErrorPrefix`. -/
def duplicateErrorPrefix : String := "UNIQUE constraint failed"

/-- `db.Exec(insertQuery, userid, name, passwordHash, fullName)`; both time columns take
their default `CURRENT_TIMESTAMP`, here `now`.  A violated `UNIQUE` or `PRIMARY KEY`
aborts the statement. -/
def execInsert (now userid name passwordHash fullName : String) : Store → Store × Option NativeError
  | .unavailable e => (.unavailable e, some e)
  | .table rows =>
    if rows.any (fun r => r.name == name) then
      (.table rows, some ⟨"UNIQUE constraint failed: Users.name"⟩)
    else if rows.any (fun r => r.userid == userid) then
      (.table rows, some ⟨"UNIQUE constraint failed: Users.userid"⟩)
    else (.table (rows ++ [⟨userid, name, passwordHash, fullName, now, now⟩]), none)

/-- `db.Exec(updateQuery, name, fullName, passwordHash, userid)`; `today` is `date('now')`.
The statement is aborted when the new rows would violate `UNIQUE` on `name`. -/
def execUpdate (today name fullName passwordHash userid : String) : Store → Store × Option NativeError
  | .unavailable e => (.unavailable e, some e)
  | .table rows =>
    let rows' := rows.map (fun r =>
      if r.userid = userid then
        { r with name := name, fullName := fullName, passwordHash := passwordHash, updatedAt := today }
      else r)
    if (rows'.map (fun r => r.name)).Nodup then (.table rows', none)
    else (.table rows, some ⟨"UNIQUE constraint failed: Users.name"⟩)

/-- `db.Exec(deleteQuery, userid)`. -/
def execDelete (userid : String) : Store → Store × Option NativeError
  | .unavailable e => (.unavailable e, some e)
  | .table rows => (.table (rows.filter (fun r => r.userid != userid)), none)

/-- `db.Get(&num, existQuery, userid)`: the number of rows with this `userid`. -/
def getCount (userid : String) : Store → Except NativeError Nat
  | .unavailable e => .error e
  | .table rows => .ok (rows.countP (fun r => r.userid == userid))

/-- `func handleSqliteError(err error, defaultMessage string) error`. -/
def handleSqliteError (err : GoError) (defaultMessage : String) : GoError :=
  if HasPrefix err.Error duplicateErrorPrefix then .ErrDuplicate
  else .wrap err defaultMessage

/-- What `Create` and `Update` leave behind: the returned `error`, the user behind the
pointer `u`, and the database. -/
structure Result where
  err : Option GoError
  user : User
  store : Store
  deriving DecidableEq, Repr

/-- `func (r *UserRepo) Create(u *models.User) error`; `lower` is `strings.ToLower`, `uuid`
is the text of `uuid.NewV4()`. -/
def Create (lower : String → String) (uuid now : String) (s : Store) (u : User) : Result :=
  let u := { u with ID := uuid }
  let u := { u with Name := lower u.Name }
  match execInsert now u.ID u.Name u.PasswordHash u.FullName s with
  | (s', some e) => ⟨some (handleSqliteError (.native e) "Failed to insert user"), u, s'⟩
  | (s', none) => ⟨none, u, s'⟩

/-- `func (r *UserRepo) Exists(id models.UserID) (bool, error)`. -/
def Exists (s : Store) (id : String) : Bool × Option GoError :=
  match getCount id s with
  | .error e => (false, some (handleSqliteError (.native e) "Failed to check for user existence"))
  | .ok num => (num != 0, none)

/-- `func (r *UserRepo) Update(u *models.User) error`. -/
def Update (lower : String → String) (today : String) (s : Store) (u : User) : Result :=
  let u := { u with Name := lower u.Name }
  let (found, err) := Exists s u.ID
  if err.isSome || !found then
    if !found then ⟨some .ErrNotExisting, u, s⟩
    else ⟨err, u, s⟩
  else
    match execUpdate today u.Name u.FullName u.PasswordHash u.ID s with
    | (s', some e) => ⟨some (handleSqliteError (.native e) "Failed to update user"), u, s'⟩
    | (s', none) => ⟨none, u, s'⟩

/-- `func (r *UserRepo) Delete(id models.UserID) error`, with the database afterwards.  The
verb `%d` applied to a string type prints as `%!d(models.UserID=...)`. -/
def Delete (s : Store) (id : String) : Option GoError × Store :=
  match execDelete id s with
  | (s', some e) =>
    (some (.wrap (.native e) ("Failed to delete user with ID #%!d(models.UserID=" ++ id ++ ")")), s')
  | (s', none) => (none, s')

/-- `func (r *UserRepo) GetByID(id uint) (*models.User, error)`. -/
def GetByID (_s : Store) (_id : Nat) : Option User × Option GoError :=
  (none, some (.errorf "Not implemented"))

/-- `func (r *UserRepo) GetByCredentials(username string, password string) (*models.User, error)`. -/
def GetByCredentials (_s : Store) (_username _password : String) : Option User × Option GoError :=
  (none, some (.errorf "Not implemented"))

/-- `func (r *UserRepo) Find(search string, offset uint, limit uint) ([]*models.User, error)`. -/
def Find (_s : Store) (_search : String) (_offset _limit : Nat) : Option (List User) × Option GoError :=
  (none, some (.errorf "Not implemented"))

/-- A lowercasing of the ASCII letters, on which `strings.ToLower` agrees for ASCII text. -/
def asciiLower (s : String) : String := String.mk (s.data.map Char.toLower)

/-- A table with two users. -/
def twoUsers : Store :=
  .table [⟨"id-1", "alice", "h1", "Alice A.", "t0", "t0"⟩, ⟨"id-2", "bob", "h2", "Bob B.", "t0", "t0"⟩]


/-- `func (u *User) SetPassword(pass string) error`, with the user behind the pointer
afterwards.  `generate` is `scrypt.GenerateFromPassword(.., scrypt.DefaultParams)` of the
library `simple-scrypt`, with the salt it draws for this call. -/
def SetPassword (generate : String → Except GoError String) (u : User) (pass : String) :
    Option GoError × User :=
  match generate pass with
  | .error e => (some (.errorf ("SetPassword: Error during password hashing: " ++ e.Error)), u)
  | .ok hash => (none, { u with PasswordHash := hash })

/-- `func (u *User) CheckPassword(pass string) error`; `compare` is
`scrypt.CompareHashAndPassword` of the library `simple-scrypt`. -/
def CheckPassword (compare : String → String → Option GoError) (u : User) (pass : String) :
    Option GoError :=
  compare u.PasswordHash pass

/-- The ten users of `testUsers` in `userrepo_test.go`, as `createTestUsers` stores them. -/
def tenUsers : Store :=
  .table
    [⟨"id-0", "boe", "h", "Jack Harkness", "t0", "t0"⟩,
     ⟨"id-1", "tardis", "h", "Time And Relative Dimensions In Space", "t0", "t0"⟩,
     ⟨"id-2", "k9", "h", "K9", "t0", "t0"⟩,
     ⟨"id-3", "donna", "h", "Donna Noble", "t0", "t0"⟩,
     ⟨"id-4", "doctor", "h", "John Smith", "t0", "t0"⟩,
     ⟨"id-5", "rory", "h", "Rory Williams", "t0", "t0"⟩,
     ⟨"id-6", "amy", "h", "Amy Pond", "t0", "t0"⟩,
     ⟨"id-7", "badwolf", "h", "Rose Tyler", "t0", "t0"⟩,
     ⟨"id-8", "clara", "h", "Clara Oswald", "t0", "t0"⟩,
     ⟨"id-9", "knightmare", "h", "Ashildr", "t0", "t0"⟩]

/-- A store whose `Users` table was never created. -/
def unmigratedStore : Store := .unavailable ⟨"no such table: Users"⟩

end Repo

/-! ## Properties of the migration engine -/

namespace Migrate

/-! ### The ledger -/

theorem find_filter_ne (rows : List MigrationRecord) (v w : Nat) (hw : w ≠ v) :
    List.find? (fun r => r.version == w) (List.filter (fun r => r.version != v) rows)
      = List.find? (fun r => r.version == w) rows := by
  induction rows with
  | nil => rfl
  | cons r rs ih =>
    by_cases hr : r.version = v
    · have h2 : r.version ≠ w := fun h => hw (h ▸ hr)
      have h3 : (r.version != v) = false := by simp [hr]
      have h4 : (r.version == w) = false := by simp [h2]
      simp only [List.filter_cons, List.find?_cons, h3, h4]
      exact ih
    · have h3 : (r.version != v) = true := by simp [hr]
      by_cases hrw : r.version = w
      · have h4 : (r.version == w) = true := by simp [hrw]
        simp only [List.filter_cons, List.find?_cons, h3, h4, if_true]
      · have h4 : (r.version == w) = false := by simp [hrw]
        simp only [List.filter_cons, List.find?_cons, h3, h4, if_true]
        exact ih

theorem status_replaceInto {δ : Type} (d : Driver δ) (db : DB δ) (v : Nat) (b : Bool)
    (h : (replaceInto d db v b).2 = none) (w : Nat) :
    (replaceInto d db v b).1.status w = if w = v then some b else db.status w := by
  unfold replaceInto at h ⊢
  cases hf : d.writeFault v b with
  | some e => simp [hf] at h
  | none =>
    cases hl : db.ledger with
    | none => simp [hf, hl] at h
    | some rows =>
      simp only [hf, hl, DB.status, Option.getD_some]
      by_cases hw : w = v
      · subst hw
        have : List.find? (fun r => r.version == w) (List.filter (fun r => r.version != w) rows) = none := by
          simp [List.find?_eq_none]
        simp [List.find?_append, this]
      · simp only [List.find?_append, find_filter_ne rows v w hw, hw, if_false]
        cases List.find? (fun r => r.version == w) rows with
        | none => simp [List.find?_cons, Ne.symm hw]
        | some r => simp

theorem replaceInto_failed {δ : Type} (d : Driver δ) (db : DB δ) (v : Nat) (b : Bool)
    (h : (replaceInto d db v b).2 ≠ none) : (replaceInto d db v b).1 = db := by
  unfold replaceInto at h ⊢
  cases hf : d.writeFault v b with
  | some e => simp
  | none =>
    cases hl : db.ledger with
    | none => simp
    | some rows => simp [hf, hl] at h

theorem replaceInto_isSome {δ : Type} (d : Driver δ) (db : DB δ) (v : Nat) (b : Bool) :
    (replaceInto d db v b).1.ledger.isSome = db.ledger.isSome := by
  unfold replaceInto
  cases hf : d.writeFault v b with
  | some e => simp
  | none =>
    cases hl : db.ledger with
    | none => simp [hl]
    | some rows => simp

theorem replaceInto_ok_isSome {δ : Type} (d : Driver δ) (db : DB δ) (v : Nat) (b : Bool)
    (h : (replaceInto d db v b).2 = none) : db.ledger.isSome = true := by
  unfold replaceInto at h
  cases hf : d.writeFault v b with
  | some e => simp [hf] at h
  | none =>
    cases hl : db.ledger with
    | none => simp [hf, hl] at h
    | some rows => simp

theorem status_replaceInto_of_ne {δ : Type} (d : Driver δ) (db : DB δ) (v : Nat) (b : Bool)
    (w : Nat) (hw : w ≠ v) : (replaceInto d db v b).1.status w = db.status w := by
  by_cases h : (replaceInto d db v b).2 = none
  · rw [status_replaceInto d db v b h, if_neg hw]
  · rw [replaceInto_failed d db v b h]

theorem querySuccess_ok_iff {δ : Type} (d : Driver δ) (db : DB δ) (v : Nat) (b : Bool) :
    querySuccess d db v = .ok b ↔
      d.lookupFault v = none ∧ db.ledger.isSome = true ∧ db.status v = some b := by
  unfold querySuccess DB.status
  cases hf : d.lookupFault v with
  | some e => simp
  | none =>
    cases hl : db.ledger with
    | none => simp
    | some rows =>
      cases hr : List.find? (fun r => r.version == v) rows with
      | none => simp [hr]
      | some r => simp [hr]

theorem querySuccess_noRows_iff {δ : Type} (d : Driver δ) (db : DB δ) (v : Nat) :
    querySuccess d db v = .error .ErrNoRows ↔
      d.lookupFault v = none ∧ db.ledger.isSome = true ∧ db.status v = none := by
  unfold querySuccess DB.status
  cases hf : d.lookupFault v with
  | some e => simp
  | none =>
    cases hl : db.ledger with
    | none => simp [noSuchTable]
    | some rows =>
      cases hr : List.find? (fun r => r.version == v) rows with
      | none => simp [hr]
      | some r => simp [hr]

/-! ### The query loop -/

theorem status_congr {δ : Type} (db db' : DB δ) (h : db'.ledger = db.ledger) (w : Nat) :
    db'.status w = db.status w := by
  unfold DB.status
  rw [h]

theorem exec_ledger {δ : Type} (d : Driver δ) (q : String) (db db' : DB δ)
    (r : Option NativeError) (hq : LeavesLedger d q) (hx : d.exec q db = (db', r)) :
    db'.ledger = db.ledger := by
  have h := hq db
  rw [hx] at h
  exact h

theorem queryLoop_versions {δ : Type} (d : Driver δ) (v : Nat) (qs : List String) :
    ∀ (i : Nat) (db : DB δ), ∀ e ∈ (queryLoop d v qs i db).trace, e.version = some v := by
  induction qs with
  | nil => intro i db e he; simp [queryLoop] at he
  | cons q qs ih =>
    intro i db e he
    cases hx : d.exec q db with
    | mk db' r =>
      cases r with
      | some x =>
        simp only [queryLoop, hx, List.mem_cons, List.mem_singleton, List.not_mem_nil, or_false] at he
        rcases he with rfl | rfl <;> rfl
      | none =>
        simp only [queryLoop, hx, List.mem_cons] at he
        rcases he with rfl | he
        · rfl
        · exact ih _ _ e he

theorem queryLoop_isSome {δ : Type} (d : Driver δ) (v : Nat) (qs : List String)
    (hq : ∀ q ∈ qs, LeavesLedger d q) :
    ∀ (i : Nat) (db : DB δ), (queryLoop d v qs i db).db.ledger.isSome = db.ledger.isSome := by
  induction qs with
  | nil => intro i db; rfl
  | cons q qs ih =>
    intro i db
    cases hx : d.exec q db with
    | mk db' r =>
      have hl := exec_ledger d q db db' r (hq q (List.mem_cons_self _ _)) hx
      cases r with
      | some x =>
        simp only [queryLoop, hx]
        rw [replaceInto_isSome, hl]
      | none =>
        simp only [queryLoop, hx]
        rw [ih (fun q' hq' => hq q' (List.mem_cons_of_mem _ hq')) _ _, hl]

theorem queryLoop_status_ne {δ : Type} (d : Driver δ) (v : Nat) (qs : List String) (w : Nat)
    (hw : w ≠ v) (hq : ∀ q ∈ qs, LeavesLedger d q) :
    ∀ (i : Nat) (db : DB δ), (queryLoop d v qs i db).db.status w = db.status w := by
  induction qs with
  | nil => intro i db; rfl
  | cons q qs ih =>
    intro i db
    cases hx : d.exec q db with
    | mk db' r =>
      have hl := exec_ledger d q db db' r (hq q (List.mem_cons_self _ _)) hx
      cases r with
      | some x =>
        simp only [queryLoop, hx]
        rw [status_replaceInto_of_ne d _ v false w hw]
        exact status_congr db db' hl w
      | none =>
        simp only [queryLoop, hx]
        rw [ih (fun q' hq' => hq q' (List.mem_cons_of_mem _ hq')) _ _]
        exact status_congr db db' hl w

theorem queryLoop_none {δ : Type} (d : Driver δ) (v : Nat) (qs : List String) :
    ∀ (i : Nat) (db : DB δ), (queryLoop d v qs i db).err = none →
      (∀ e ∈ (queryLoop d v qs i db).trace, e.ok = true ∧ e.isStmt = true) ∧
      executedQueries (queryLoop d v qs i db).trace = qs := by
  induction qs with
  | nil => intro i db _; simp [queryLoop, executedQueries]
  | cons q qs ih =>
    intro i db h
    cases hx : d.exec q db with
    | mk db' r =>
      cases r with
      | some x => simp [queryLoop, hx] at h
      | none =>
        simp only [queryLoop, hx] at h ⊢
        obtain ⟨h2, h3⟩ := ih _ _ h
        refine ⟨?_, ?_⟩
        · intro e he
          rcases List.mem_cons.1 he with rfl | he
          · exact ⟨rfl, rfl⟩
          · exact h2 e he
        · simp [executedQueries, h3]

theorem queryLoop_some {δ : Type} (d : Driver δ) (v : Nat) (qs : List String) :
    ∀ (i : Nat) (db : DB δ), (queryLoop d v qs i db).err ≠ none →
      (∃ e ∈ (queryLoop d v qs i db).trace, e.isStmt = true ∧ e.ok = false) ∧
      ((∀ e ∈ (queryLoop d v qs i db).trace, e.isWrite = true → e.ok = true) →
        (queryLoop d v qs i db).db.status v = some false) := by
  induction qs with
  | nil => intro i db h; simp [queryLoop] at h
  | cons q qs ih =>
    intro i db h
    cases hx : d.exec q db with
    | mk db' r =>
      cases r with
      | some x =>
        simp only [queryLoop, hx]
        refine ⟨⟨_, List.mem_cons_self _ _, rfl, rfl⟩, ?_⟩
        intro hw
        have hw2 := hw (.write v false (replaceInto d db' v false).2.isNone) (by simp) rfl
        simp only [Event.ok, Option.isNone_iff_eq_none] at hw2
        rw [status_replaceInto d _ v false hw2, if_pos rfl]
      | none =>
        simp only [queryLoop, hx] at h ⊢
        obtain ⟨⟨e, he, h1, h2⟩, h3⟩ := ih _ _ h
        refine ⟨⟨e, List.mem_cons_of_mem _ he, h1, h2⟩, ?_⟩
        intro hw
        exact h3 (fun e he => hw e (List.mem_cons_of_mem _ he))

theorem executedQueries_append (s t : List Event) :
    executedQueries (s ++ t) = executedQueries s ++ executedQueries t := by
  induction s with
  | nil => rfl
  | cons e s ih => cases e <;> simp [executedQueries, ih]

theorem queryLoop_executed {δ : Type} (d : Driver δ) (v : Nat) (qs : List String) :
    ∀ (i : Nat) (db : DB δ), executedQueries (queryLoop d v qs i db).trace <+: qs ∧
      (executedQueries (queryLoop d v qs i db).trace).head? = qs.head? := by
  induction qs with
  | nil => intro i db; simp [queryLoop, executedQueries]
  | cons q qs ih =>
    intro i db
    cases hx : d.exec q db with
    | mk db' r =>
      cases r with
      | some x =>
        simp [queryLoop, hx, executedQueries, List.prefix_cons_inj]
      | none =>
        simp only [queryLoop, hx, executedQueries, List.head?_cons, and_true]
        exact (List.prefix_cons_inj q).2 (ih _ _).1

/-! ### One migration -/

theorem attempt_versions {δ : Type} (d : Driver δ) (mig : dbMigration) (db : DB δ) :
    ∀ e ∈ (attempt d mig db).trace, e.version = some mig.Version := by
  intro e he
  unfold attempt at he
  cases hr : (queryLoop d mig.Version mig.Queries 0 db).err with
  | some x =>
    simp only [hr] at he
    exact queryLoop_versions d _ _ _ _ e he
  | none =>
    simp only [hr, List.mem_append, List.mem_singleton] at he
    rcases he with he | rfl
    · exact queryLoop_versions d _ _ _ _ e he
    · rfl

theorem attempt_isSome {δ : Type} (d : Driver δ) (mig : dbMigration) (db : DB δ)
    (hqs : ∀ q ∈ mig.Queries, LeavesLedger d q) :
    (attempt d mig db).db.ledger.isSome = db.ledger.isSome := by
  unfold attempt
  cases hr : (queryLoop d mig.Version mig.Queries 0 db).err with
  | some x => simp only [hr]; exact queryLoop_isSome d _ _ hqs _ _
  | none =>
    simp only [hr]
    rw [replaceInto_isSome]
    exact queryLoop_isSome d _ _ hqs _ _

theorem attempt_status_ne {δ : Type} (d : Driver δ) (mig : dbMigration) (db : DB δ) (w : Nat)
    (hw : w ≠ mig.Version) (hqs : ∀ q ∈ mig.Queries, LeavesLedger d q) :
    (attempt d mig db).db.status w = db.status w := by
  unfold attempt
  cases hr : (queryLoop d mig.Version mig.Queries 0 db).err with
  | some x => simp only [hr]; exact queryLoop_status_ne d _ _ w hw hqs _ _
  | none =>
    simp only [hr]
    rw [status_replaceInto_of_ne d _ _ true w hw]
    exact queryLoop_status_ne d _ _ w hw hqs _ _

theorem attempt_all_ok {δ : Type} (d : Driver δ) (mig : dbMigration) (db : DB δ)
    (h : ∀ e ∈ (attempt d mig db).trace, e.ok = true) :
    (attempt d mig db).err = none ∧ (attempt d mig db).db.status mig.Version = some true := by
  unfold attempt at h ⊢
  cases hr : (queryLoop d mig.Version mig.Queries 0 db).err with
  | some x =>
    simp only [hr] at h
    obtain ⟨⟨e, he, _, h2⟩, _⟩ := queryLoop_some d mig.Version mig.Queries 0 db (by simp [hr])
    rw [h e he] at h2
    exact absurd h2 (by simp)
  | none =>
    simp only [hr] at h ⊢
    have hw := h (.write mig.Version true
      (replaceInto d (queryLoop d mig.Version mig.Queries 0 db).db mig.Version true).2.isNone)
      (by simp)
    simp only [Event.ok, Option.isNone_iff_eq_none] at hw
    refine ⟨trivial, ?_⟩
    rw [status_replaceInto d _ _ true hw, if_pos rfl]

theorem attempt_executed {δ : Type} (d : Driver δ) (mig : dbMigration) (db : DB δ) :
    executedQueries (attempt d mig db).trace <+: mig.Queries ∧
      (executedQueries (attempt d mig db).trace).head? = mig.Queries.head? ∧
      ((attempt d mig db).err = none → executedQueries (attempt d mig db).trace = mig.Queries) := by
  unfold attempt
  cases hr : (queryLoop d mig.Version mig.Queries 0 db).err with
  | some x =>
    simp only [hr]
    exact ⟨(queryLoop_executed d _ _ _ _).1, (queryLoop_executed d _ _ _ _).2, by simp⟩
  | none =>
    simp only [hr, executedQueries_append, executedQueries, List.append_nil]
    exact ⟨(queryLoop_executed d _ _ _ _).1, (queryLoop_executed d _ _ _ _).2,
      fun _ => (queryLoop_none d _ _ _ _ hr).2⟩

theorem Execute_versions {δ : Type} (d : Driver δ) (mig : dbMigration) (db : DB δ) :
    ∀ e ∈ (Execute d mig db).trace, e.version = some mig.Version := by
  intro e he
  unfold Execute at he
  cases hq : querySuccess d db mig.Version with
  | error x =>
    cases x with
    | ErrNoRows =>
      simp only [hq, List.mem_cons] at he
      rcases he with rfl | he
      · rfl
      · exact attempt_versions d mig db e he
    | native n =>
      simp only [hq, List.mem_singleton] at he
      subst he; rfl
  | ok b =>
    cases b with
    | true =>
      simp only [hq, List.mem_singleton] at he
      subst he; rfl
    | false =>
      simp only [hq, List.mem_cons] at he
      rcases he with rfl | he
      · rfl
      · exact attempt_versions d mig db e he

theorem Execute_isSome {δ : Type} (d : Driver δ) (mig : dbMigration) (db : DB δ)
    (hqs : ∀ q ∈ mig.Queries, LeavesLedger d q) :
    (Execute d mig db).db.ledger.isSome = db.ledger.isSome := by
  unfold Execute
  cases hq : querySuccess d db mig.Version with
  | error x =>
    cases x with
    | ErrNoRows => exact attempt_isSome d mig db hqs
    | native n => rfl
  | ok b =>
    cases b with
    | true => rfl
    | false => exact attempt_isSome d mig db hqs

theorem Execute_status_ne {δ : Type} (d : Driver δ) (mig : dbMigration) (db : DB δ) (w : Nat)
    (hw : w ≠ mig.Version) (hqs : ∀ q ∈ mig.Queries, LeavesLedger d q) :
    (Execute d mig db).db.status w = db.status w := by
  unfold Execute
  cases hq : querySuccess d db mig.Version with
  | error x =>
    cases x with
    | ErrNoRows => exact attempt_status_ne d mig db w hw hqs
    | native n => rfl
  | ok b =>
    cases b with
    | true => rfl
    | false => exact attempt_status_ne d mig db w hw hqs

theorem Execute_skip {δ : Type} (d : Driver δ) (mig : dbMigration) (db : DB δ)
    (h : querySuccess d db mig.Version = .ok true) :
    Execute d mig db = ⟨none, db, [.lookup mig.Version true]⟩ := by
  unfold Execute
  simp only [h]

theorem Execute_mono {δ : Type} (d : Driver δ) (mig : dbMigration) (db : DB δ) (w : Nat)
    (hqs : ∀ q ∈ mig.Queries, LeavesLedger d q) (h : db.status w = some true) :
    (Execute d mig db).db.status w = some true := by
  by_cases hw : w = mig.Version
  · subst hw
    unfold Execute
    cases hq : querySuccess d db mig.Version with
    | error x =>
      cases x with
      | ErrNoRows =>
        have := ((querySuccess_noRows_iff d db _).1 hq).2.2
        rw [h] at this
        exact absurd this (by simp)
      | native n => exact h
    | ok b =>
      cases b with
      | true => exact h
      | false =>
        have := ((querySuccess_ok_iff d db _ false).1 hq).2.2
        rw [h] at this
        exact absurd this (by simp)
  · rw [Execute_status_ne d mig db w hw hqs]
    exact h

theorem Execute_all_ok {δ : Type} (d : Driver δ) (mig : dbMigration) (db : DB δ)
    (hqs : ∀ q ∈ mig.Queries, LeavesLedger d q) (h : ∀ e ∈ (Execute d mig db).trace, e.ok = true) :
    (Execute d mig db).err = none ∧ (Execute d mig db).db.status mig.Version = some true ∧
      d.lookupFault mig.Version = none ∧ (Execute d mig db).db.ledger.isSome = true := by
  have hs := Execute_isSome d mig db hqs
  unfold Execute at h hs ⊢
  cases hq : querySuccess d db mig.Version with
  | error x =>
    cases x with
    | ErrNoRows =>
      simp only [hq] at h hs ⊢
      obtain ⟨h1, h2⟩ := attempt_all_ok d mig db (fun e he => h e (List.mem_cons_of_mem _ he))
      obtain ⟨h3, h4, _⟩ := (querySuccess_noRows_iff d db _).1 hq
      exact ⟨h1, h2, h3, hs.trans h4⟩
    | native n =>
      simp only [hq] at h
      have := h (.lookup mig.Version false) (by simp)
      simp [Event.ok] at this
  | ok b =>
    cases b with
    | true =>
      obtain ⟨h3, h4, h5⟩ := (querySuccess_ok_iff d db _ true).1 hq
      simp only [hq]
      exact ⟨trivial, h5, h3, h4⟩
    | false =>
      simp only [hq] at h hs ⊢
      obtain ⟨h1, h2⟩ := attempt_all_ok d mig db (fun e he => h e (List.mem_cons_of_mem _ he))
      obtain ⟨h3, h4, _⟩ := (querySuccess_ok_iff d db _ false).1 hq
      exact ⟨h1, h2, h3, hs.trans h4⟩

theorem Execute_none_stmts_ok {δ : Type} (d : Driver δ) (mig : dbMigration) (db : DB δ)
    (h : (Execute d mig db).err = none) :
    ∀ e ∈ (Execute d mig db).trace, e.isStmt = true → e.ok = true := by
  have key : (attempt d mig db).err = none →
      ∀ e ∈ (attempt d mig db).trace, e.isStmt = true → e.ok = true := by
    unfold attempt
    cases hr : (queryLoop d mig.Version mig.Queries 0 db).err with
    | some x => simp [hr]
    | none =>
      intro _ e he hs
      simp only [hr, List.mem_append, List.mem_singleton] at he
      rcases he with he | rfl
      · exact ((queryLoop_none d _ _ _ _ hr).1 e he).1
      · simp [Event.isStmt] at hs
  unfold Execute at h ⊢
  cases hq : querySuccess d db mig.Version with
  | error x =>
    cases x with
    | ErrNoRows =>
      simp only [hq] at h ⊢
      intro e he hs
      rcases List.mem_cons.1 he with rfl | he
      · rfl
      · exact key h e he hs
    | native n => simp [hq] at h
  | ok b =>
    cases b with
    | true =>
      intro e he hs
      simp only [List.mem_singleton] at he
      subst he; rfl
    | false =>
      simp only [hq] at h ⊢
      intro e he hs
      rcases List.mem_cons.1 he with rfl | he
      · rfl
      · exact key h e he hs

theorem Execute_failed_status {δ : Type} (d : Driver δ) (mig : dbMigration) (db : DB δ)
    (h : (Execute d mig db).err ≠ none)
    (hok : ∀ e ∈ (Execute d mig db).trace, e.isStmt = false → e.ok = true) :
    (Execute d mig db).db.status mig.Version = some false := by
  have key : (attempt d mig db).err ≠ none →
      (∀ e ∈ (attempt d mig db).trace, e.isStmt = false → e.ok = true) →
      (attempt d mig db).db.status mig.Version = some false := by
    unfold attempt
    cases hr : (queryLoop d mig.Version mig.Queries 0 db).err with
    | none => simp [hr]
    | some x =>
      intro _ hok
      simp only [hr] at hok ⊢
      refine (queryLoop_some d _ _ _ _ (by simp [hr])).2 ?_
      intro e he hw
      refine hok e he ?_
      cases e <;> simp_all [Event.isStmt, Event.isWrite]
  unfold Execute at h hok ⊢
  cases hq : querySuccess d db mig.Version with
  | error x =>
    cases x with
    | ErrNoRows =>
      simp only [hq] at h hok ⊢
      exact key h (fun e he => hok e (List.mem_cons_of_mem _ he))
    | native n =>
      simp only [hq] at hok
      have := hok (.lookup mig.Version false) (by simp) rfl
      simp [Event.ok] at this
  | ok b =>
    cases b with
    | true => simp [hq] at h
    | false =>
      simp only [hq] at h hok ⊢
      exact key h (fun e he => hok e (List.mem_cons_of_mem _ he))

/-! ### The catalog -/

theorem executeAll_cons_of_none {δ : Type} (d : Driver δ) (mig : dbMigration)
    (rest : List dbMigration) (db : DB δ) (h : (Execute d mig db).err = none) :
    executeAll d (mig :: rest) db =
      ⟨(executeAll d rest (Execute d mig db).db).err, (executeAll d rest (Execute d mig db).db).db,
        (Execute d mig db).trace ++ (executeAll d rest (Execute d mig db).db).trace⟩ := by
  simp only [executeAll, h]

theorem executeAll_cons_of_some {δ : Type} (d : Driver δ) (mig : dbMigration)
    (rest : List dbMigration) (db : DB δ) (h : (Execute d mig db).err ≠ none) :
    executeAll d (mig :: rest) db = Execute d mig db := by
  cases hr : (Execute d mig db).err with
  | none => exact absurd hr h
  | some x =>
    simp only [executeAll, hr]
    rw [← hr]

theorem executeAll_versions {δ : Type} (d : Driver δ) (cat : List dbMigration) :
    ∀ (db : DB δ), ∀ e ∈ (executeAll d cat db).trace, ∃ m ∈ cat, e.version = some m.Version := by
  induction cat with
  | nil => intro db e he; simp [executeAll] at he
  | cons m rest ih =>
    intro db e he
    by_cases h : (Execute d m db).err = none
    · rw [executeAll_cons_of_none d m rest db h] at he
      rcases List.mem_append.1 he with he | he
      · exact ⟨m, List.mem_cons_self _ _, Execute_versions d m db e he⟩
      · obtain ⟨m', hm', hv⟩ := ih _ e he
        exact ⟨m', List.mem_cons_of_mem _ hm', hv⟩
    · rw [executeAll_cons_of_some d m rest db h] at he
      exact ⟨m, List.mem_cons_self _ _, Execute_versions d m db e he⟩

theorem CatalogLeavesLedger.head {δ : Type} {d : Driver δ} {m : dbMigration}
    {rest : List dbMigration} (hc : CatalogLeavesLedger d (m :: rest)) :
    ∀ q ∈ m.Queries, LeavesLedger d q :=
  hc m (List.mem_cons_self _ _)

theorem CatalogLeavesLedger.tail {δ : Type} {d : Driver δ} {m : dbMigration}
    {rest : List dbMigration} (hc : CatalogLeavesLedger d (m :: rest)) :
    CatalogLeavesLedger d rest :=
  fun m' hm' => hc m' (List.mem_cons_of_mem _ hm')

theorem executeAll_isSome {δ : Type} (d : Driver δ) (cat : List dbMigration)
    (hc : CatalogLeavesLedger d cat) :
    ∀ (db : DB δ), (executeAll d cat db).db.ledger.isSome = db.ledger.isSome := by
  induction cat with
  | nil => intro db; rfl
  | cons m rest ih =>
    intro db
    by_cases h : (Execute d m db).err = none
    · rw [executeAll_cons_of_none d m rest db h]
      exact (ih hc.tail _).trans (Execute_isSome d m db hc.head)
    · rw [executeAll_cons_of_some d m rest db h]
      exact Execute_isSome d m db hc.head

theorem executeAll_status_ne {δ : Type} (d : Driver δ) (cat : List dbMigration) (w : Nat)
    (hw : ∀ m ∈ cat, w ≠ m.Version) (hc : CatalogLeavesLedger d cat) :
    ∀ (db : DB δ), (executeAll d cat db).db.status w = db.status w := by
  induction cat with
  | nil => intro db; rfl
  | cons m rest ih =>
    intro db
    have h1 := Execute_status_ne d m db w (hw m (List.mem_cons_self _ _)) hc.head
    by_cases h : (Execute d m db).err = none
    · rw [executeAll_cons_of_none d m rest db h]
      exact (ih (fun m' hm' => hw m' (List.mem_cons_of_mem _ hm')) hc.tail _).trans h1
    · rw [executeAll_cons_of_some d m rest db h]
      exact h1

theorem executeAll_mono {δ : Type} (d : Driver δ) (cat : List dbMigration) (w : Nat)
    (hc : CatalogLeavesLedger d cat) :
    ∀ (db : DB δ), db.status w = some true → (executeAll d cat db).db.status w = some true := by
  induction cat with
  | nil => intro db h; exact h
  | cons m rest ih =>
    intro db hs
    have h1 := Execute_mono d m db w hc.head hs
    by_cases h : (Execute d m db).err = none
    · rw [executeAll_cons_of_none d m rest db h]
      exact ih hc.tail _ h1
    · rw [executeAll_cons_of_some d m rest db h]
      exact h1

theorem executeAll_all_ok {δ : Type} (d : Driver δ) (cat : List dbMigration)
    (hc : CatalogLeavesLedger d cat) :
    ∀ (db : DB δ), (∀ e ∈ (executeAll d cat db).trace, e.ok = true) →
      (executeAll d cat db).err = none ∧
      ∀ m ∈ cat, (executeAll d cat db).db.status m.Version = some true ∧
        d.lookupFault m.Version = none := by
  induction cat with
  | nil => intro db _; simp [executeAll]
  | cons m rest ih =>
    intro db hok
    by_cases h : (Execute d m db).err = none
    · rw [executeAll_cons_of_none d m rest db h] at hok ⊢
      obtain ⟨h1, h2, h3, _⟩ := Execute_all_ok d m db hc.head
        (fun e he => hok e (List.mem_append_left _ he))
      obtain ⟨h5, h6⟩ := ih hc.tail _ (fun e he => hok e (List.mem_append_right _ he))
      refine ⟨h5, ?_⟩
      intro m' hm'
      rcases List.mem_cons.1 hm' with rfl | hm'
      · exact ⟨executeAll_mono d rest _ hc.tail _ h2, h3⟩
      · exact h6 m' hm'
    · rw [executeAll_cons_of_some d m rest db h] at hok
      exact absurd (Execute_all_ok d m db hc.head hok).1 h

theorem executeAll_skip {δ : Type} (d : Driver δ) (cat : List dbMigration) (db : DB δ)
    (h : ∀ m ∈ cat, querySuccess d db m.Version = .ok true) :
    executeAll d cat db = ⟨none, db, cat.map (fun m => .lookup m.Version true)⟩ := by
  induction cat with
  | nil => rfl
  | cons m rest ih =>
    have h1 := Execute_skip d m db (h m (List.mem_cons_self _ _))
    rw [executeAll_cons_of_none d m rest db (by rw [h1]), h1]
    simp only [ih (fun m' hm' => h m' (List.mem_cons_of_mem _ hm'))]
    rfl

theorem version_of_stmtVersion (e : Event) (v : Nat) (h : e.stmtVersion = some v) :
    e.version = some v := by
  cases e <;> simp_all [Event.stmtVersion, Event.version]

theorem executeAll_first_failure {δ : Type} (d : Driver δ) (m : dbMigration)
    (after : List dbMigration) :
    ∀ (before : List dbMigration) (db : DB δ),
      CatalogLeavesLedger d (before ++ m :: after) →
      ((before ++ m :: after).map (fun m => m.Version)).Nodup →
      (∀ m' ∈ m :: after, db.status m'.Version = none) →
      (∀ e ∈ (executeAll d (before ++ m :: after) db).trace,
        e.ok = false → e.stmtVersion = some m.Version) →
      (∃ e ∈ (executeAll d (before ++ m :: after) db).trace, e.ok = false) →
      (executeAll d (before ++ m :: after) db).err ≠ none ∧
      (∀ m' ∈ before, (executeAll d (before ++ m :: after) db).db.status m'.Version = some true) ∧
      (executeAll d (before ++ m :: after) db).db.status m.Version = some false ∧
      (∀ m' ∈ after, (executeAll d (before ++ m :: after) db).db.status m'.Version = none ∧
        ∀ e ∈ (executeAll d (before ++ m :: after) db).trace, e.version ≠ some m'.Version) := by
  intro before
  induction before with
  | nil =>
    intro db hc hnd hst hfail hex
    simp only [List.nil_append] at hc hnd hfail hex ⊢
    have hne : ∀ m' ∈ after, m'.Version ≠ m.Version := by
      intro m' hm' heq
      simp only [List.map_cons, List.nodup_cons, List.mem_map] at hnd
      exact hnd.1 ⟨m', hm', heq⟩
    by_cases h : (Execute d m db).err = none
    · exfalso
      rw [executeAll_cons_of_none d m after db h] at hfail hex
      obtain ⟨e, he, hbad⟩ := hex
      have hsv := hfail e he hbad
      rcases List.mem_append.1 he with he | he
      · have hstmt : e.isStmt = true := by
          cases e <;> simp_all [Event.stmtVersion, Event.isStmt]
        rw [Execute_none_stmts_ok d m db h e he hstmt] at hbad
        exact absurd hbad (by simp)
      · obtain ⟨m', hm', hv⟩ := executeAll_versions d after _ e he
        rw [version_of_stmtVersion e _ hsv] at hv
        exact hne m' hm' (Option.some.inj hv).symm
    · rw [executeAll_cons_of_some d m after db h] at hfail hex ⊢
      refine ⟨h, by simp, ?_, ?_⟩
      · refine Execute_failed_status d m db h ?_
        intro e he hns
        by_contra hbad
        have hsv := hfail e he (by simpa using hbad)
        cases e <;> simp_all [Event.stmtVersion, Event.isStmt]
      · intro m' hm'
        refine ⟨?_, ?_⟩
        · rw [Execute_status_ne d m db _ (hne m' hm') hc.head]
          exact hst m' (List.mem_cons_of_mem _ hm')
        · intro e he hv
          rw [Execute_versions d m db e he] at hv
          exact hne m' hm' (Option.some.inj hv).symm
  | cons b bs ih =>
    intro db hc hnd hst hfail hex
    simp only [List.cons_append] at hc hnd hfail hex ⊢
    have hnd' : ((bs ++ m :: after).map (fun m => m.Version)).Nodup := by
      simp only [List.map_cons, List.nodup_cons] at hnd
      exact hnd.2
    have hb : ∀ m' ∈ bs ++ m :: after, m'.Version ≠ b.Version := by
      intro m' hm' heq
      simp only [List.map_cons, List.nodup_cons, List.mem_map] at hnd
      exact hnd.1 ⟨m', hm', heq⟩
    have hsub : ∀ e ∈ (Execute d b db).trace, e ∈ (executeAll d (b :: (bs ++ m :: after)) db).trace := by
      intro e he
      by_cases h : (Execute d b db).err = none
      · rw [executeAll_cons_of_none d b _ db h]
        exact List.mem_append_left _ he
      · rw [executeAll_cons_of_some d b _ db h]
        exact he
    have hbok : ∀ e ∈ (Execute d b db).trace, e.ok = true := by
      intro e he
      by_contra hbad
      have hsv := hfail e (hsub e he) (by simpa using hbad)
      have hv := version_of_stmtVersion e _ hsv
      rw [Execute_versions d b db e he] at hv
      exact hb m (by simp) (Option.some.inj hv).symm
    obtain ⟨h1, h2, _, _⟩ := Execute_all_ok d b db hc.head hbok
    rw [executeAll_cons_of_none d b _ db h1] at hfail hex ⊢
    have hex' : ∃ e ∈ (executeAll d (bs ++ m :: after) (Execute d b db).db).trace, e.ok = false := by
      obtain ⟨e, he, hbad⟩ := hex
      rcases List.mem_append.1 he with he | he
      · rw [hbok e he] at hbad
        exact absurd hbad (by simp)
      · exact ⟨e, he, hbad⟩
    obtain ⟨r1, r2, r3, r4⟩ := ih (Execute d b db).db hc.tail hnd'
      (fun m' hm' => by
        rw [Execute_status_ne d b db _ (hb m' (by
          rcases List.mem_cons.1 hm' with rfl | hm'
          · simp
          · simp [hm'])) hc.head]
        exact hst m' hm')
      (fun e he => hfail e (List.mem_append_right _ he)) hex'
    refine ⟨r1, ?_, r3, ?_⟩
    · intro m' hm'
      rcases List.mem_cons.1 hm' with rfl | hm'
      · exact executeAll_mono d _ _ hc.tail _ h2
      · exact r2 m' hm'
    · intro m' hm'
      refine ⟨(r4 m' hm').1, ?_⟩
      intro e he
      rcases List.mem_append.1 he with he | he
      · rw [Execute_versions d b db e he]
        intro hv
        exact hb m' (by simp [hm']) (Option.some.inj hv).symm
      · exact (r4 m' hm').2 e he

theorem sampleExec_leaves (failure : NativeError) (q : String)
    (h : q ≠ "DELETE FROM Migrations") (db : DB (List String)) :
    (sampleExec failure q db).1.ledger = db.ledger := by
  unfold sampleExec
  split_ifs <;> rfl

theorem sampleDriver_leaves (cat : List dbMigration)
    (h : ∀ m ∈ cat, ∀ q ∈ m.Queries, q ≠ "DELETE FROM Migrations") :
    CatalogLeavesLedger sampleDriver cat :=
  fun m hm q hq db => sampleExec_leaves _ q (h m hm q hq) db

/-- The catalog that `init` installs has strictly ascending versions. -/
theorem migrations_ascending : Ascending migrations := by
  unfold Ascending migrations
  decide

/-! ### The claims on the migration engine -/

/-- C1 (idempotent migration), as the code has it.  The queries of the catalog leave the
`Migrations` table as it is, and every database call of a first run of
`ExecuteMigrationsOnDb` returns without error.  Then the ledger afterwards records
`success = true` for every version of the catalog, and a second run on the resulting
database returns no error, executes no query of the catalog, writes nothing to the ledger
and leaves the database (schema, data and ledger) as the first run left it.  The
ordering of the versions is not needed. -/
theorem idempotent_migration {δ : Type} (d : Driver δ) (cat : List dbMigration) (db : DB δ)
    (hquiet : CatalogLeavesLedger d cat)
    (hok : ∀ e ∈ (ExecuteMigrationsOnDb d cat db).trace, e.ok = true) :
    (∀ m ∈ cat, (ExecuteMigrationsOnDb d cat db).db.status m.Version = some true) ∧
    (ExecuteMigrationsOnDb d cat (ExecuteMigrationsOnDb d cat db).db).err = none ∧
    (∀ e ∈ (ExecuteMigrationsOnDb d cat (ExecuteMigrationsOnDb d cat db).db).trace,
      e.isStmt = false ∧ e.isWrite = false) ∧
    (ExecuteMigrationsOnDb d cat (ExecuteMigrationsOnDb d cat db).db).db
      = (ExecuteMigrationsOnDb d cat db).db := by
  cases hc : d.createFault with
  | some x =>
    have := hok (.create false) (by simp [ExecuteMigrationsOnDb, createTable, hc])
    simp [Event.ok] at this
  | none =>
    have e1 : ExecuteMigrationsOnDb d cat db =
        ⟨(executeAll d cat ⟨some (db.ledger.getD []), db.data⟩).err,
          (executeAll d cat ⟨some (db.ledger.getD []), db.data⟩).db,
          .create true :: (executeAll d cat ⟨some (db.ledger.getD []), db.data⟩).trace⟩ := by
      simp [ExecuteMigrationsOnDb, createTable, hc]
    rw [e1] at hok ⊢
    simp only at hok ⊢
    obtain ⟨_, h2⟩ := executeAll_all_ok d cat hquiet _ (fun e he => hok e (List.mem_cons_of_mem _ he))
    have hsome := executeAll_isSome d cat hquiet (⟨some (db.ledger.getD []), db.data⟩ : DB δ)
    simp only [Option.isSome_some] at hsome
    obtain ⟨rows, hrows⟩ := Option.isSome_iff_exists.1 hsome
    have e2 : ExecuteMigrationsOnDb d cat (executeAll d cat ⟨some (db.ledger.getD []), db.data⟩).db =
        ⟨none, (executeAll d cat ⟨some (db.ledger.getD []), db.data⟩).db,
          .create true :: cat.map (fun m => .lookup m.Version true)⟩ := by
      have e3 : (⟨some ((executeAll d cat ⟨some (db.ledger.getD []), db.data⟩).db.ledger.getD []),
          (executeAll d cat ⟨some (db.ledger.getD []), db.data⟩).db.data⟩ : DB δ)
          = (executeAll d cat ⟨some (db.ledger.getD []), db.data⟩).db := by
        rw [hrows]
        cases hdb : (executeAll d cat ⟨some (db.ledger.getD []), db.data⟩).db with
        | mk l dat =>
          rw [hdb] at hrows
          simp only at hrows
          simp [hrows]
      simp only [ExecuteMigrationsOnDb, createTable, hc, e3]
      rw [executeAll_skip d cat _ (fun m hm =>
        (querySuccess_ok_iff d _ _ true).2 ⟨(h2 m hm).2, hsome, (h2 m hm).1⟩)]
    rw [e2]
    refine ⟨fun m hm => (h2 m hm).1, rfl, ?_, rfl⟩
    intro e he
    rcases List.mem_cons.1 he with rfl | he
    · exact ⟨rfl, rfl⟩
    · obtain ⟨m, _, rfl⟩ := List.mem_map.1 he
      exact ⟨rfl, rfl⟩

/-- Witness of C1: the sample engine, a two-version catalog, a database without tables. -/
theorem idempotent_migration_witness :
    (CatalogLeavesLedger sampleDriver goodCatalog ∧
      ∀ e ∈ (ExecuteMigrationsOnDb sampleDriver goodCatalog freshDB).trace, e.ok = true) ∧
    ((∀ m ∈ goodCatalog,
        (ExecuteMigrationsOnDb sampleDriver goodCatalog freshDB).db.status m.Version = some true) ∧
      (ExecuteMigrationsOnDb sampleDriver goodCatalog
        (ExecuteMigrationsOnDb sampleDriver goodCatalog freshDB).db).err = none ∧
      (∀ e ∈ (ExecuteMigrationsOnDb sampleDriver goodCatalog
          (ExecuteMigrationsOnDb sampleDriver goodCatalog freshDB).db).trace,
        e.isStmt = false ∧ e.isWrite = false) ∧
      (ExecuteMigrationsOnDb sampleDriver goodCatalog
          (ExecuteMigrationsOnDb sampleDriver goodCatalog freshDB).db).db
        = (ExecuteMigrationsOnDb sampleDriver goodCatalog freshDB).db) :=
  ⟨⟨sampleDriver_leaves goodCatalog (by decide), by decide⟩,
    idempotent_migration sampleDriver goodCatalog freshDB
      (sampleDriver_leaves goodCatalog (by decide)) (by decide)⟩

/-- C1 as stated fails.  The catalog has versions 1 and 2, the query of version 2 is
`DELETE FROM Migrations`, and every database call of the first run on a database without
tables returns without error.  Afterwards the ledger holds the record of version 2 only,
and the second run executes the query of version 1 again, which fails because its table
exists. -/
theorem idempotent_migration_erased_ledger :
    Ascending erasingCatalog ∧
    (∀ e ∈ (ExecuteMigrationsOnDb sampleDriver erasingCatalog freshDB).trace, e.ok = true) ∧
    (ExecuteMigrationsOnDb sampleDriver erasingCatalog freshDB).err = none ∧
    (ExecuteMigrationsOnDb sampleDriver erasingCatalog freshDB).db.ledger = some [⟨2, true⟩] ∧
    ¬ (∀ m ∈ erasingCatalog,
      (ExecuteMigrationsOnDb sampleDriver erasingCatalog freshDB).db.status m.Version = some true) ∧
    (ExecuteMigrationsOnDb sampleDriver erasingCatalog
      (ExecuteMigrationsOnDb sampleDriver erasingCatalog freshDB).db).err
        = some ⟨"table already exists"⟩ ∧
    (ExecuteMigrationsOnDb sampleDriver erasingCatalog
      (ExecuteMigrationsOnDb sampleDriver erasingCatalog freshDB).db).trace
        = [.create true, .lookup 1 true, .stmt 1 0 "CREATE TABLE T" false, .write 1 false true] :=
  ⟨by unfold Ascending erasingCatalog; decide, by decide, by decide, by decide, by decide,
    by decide, by decide⟩

/-- C2 (ordered application), as the code has it.  The catalog `before ++ m :: after` has
strictly ascending versions, its queries leave the `Migrations` table as it is, and it
runs against a database with an empty ledger; the first database call to fail is a query
of `m`, the unit at position `before.length`, and the database calls after it (the write
that records the failure) succeed.  Then
`ExecuteMigrationsOnDb` returns an error, every unit of `before` is recorded with
`success = true`, `m` is recorded with `success = false`, and for every unit of `after`
there is no ledger record and no database call at all. -/
theorem ordered_application {δ : Type} (d : Driver δ) (before after : List dbMigration)
    (m : dbMigration) (db : DB δ) (pre post : List Event) (i : Nat) (q : String)
    (hasc : Ascending (before ++ m :: after))
    (hquiet : CatalogLeavesLedger d (before ++ m :: after))
    (hempty : db.ledger.getD [] = [])
    (htrace : (ExecuteMigrationsOnDb d (before ++ m :: after) db).trace
      = pre ++ .stmt m.Version i q false :: post)
    (hpre : ∀ e ∈ pre, e.ok = true)
    (hpost : ∀ e ∈ post, e.ok = true) :
    (ExecuteMigrationsOnDb d (before ++ m :: after) db).err ≠ none ∧
    (∀ m' ∈ before,
      (ExecuteMigrationsOnDb d (before ++ m :: after) db).db.status m'.Version = some true) ∧
    (ExecuteMigrationsOnDb d (before ++ m :: after) db).db.status m.Version = some false ∧
    (∀ m' ∈ after,
      (ExecuteMigrationsOnDb d (before ++ m :: after) db).db.status m'.Version = none ∧
      ∀ e ∈ (ExecuteMigrationsOnDb d (before ++ m :: after) db).trace,
        e.version ≠ some m'.Version) := by
  have hfail : ∀ e ∈ (ExecuteMigrationsOnDb d (before ++ m :: after) db).trace,
      e.ok = false → e.stmtVersion = some m.Version := by
    intro e he hbad
    rw [htrace] at he
    rcases List.mem_append.1 he with he | he
    · rw [hpre e he] at hbad
      exact absurd hbad (by simp)
    · rcases List.mem_cons.1 he with rfl | he
      · rfl
      · rw [hpost e he] at hbad
        exact absurd hbad (by simp)
  have hex : ∃ e ∈ (ExecuteMigrationsOnDb d (before ++ m :: after) db).trace, e.ok = false :=
    ⟨.stmt m.Version i q false, by rw [htrace]; simp, rfl⟩
  have hnd : ((before ++ m :: after).map (fun m => m.Version)).Nodup :=
    List.Pairwise.imp (fun h => Nat.ne_of_lt h) hasc
  cases hc : d.createFault with
  | some x =>
    have := hfail (.create false) (by simp [ExecuteMigrationsOnDb, createTable, hc]) rfl
    simp [Event.stmtVersion] at this
  | none =>
    have e1 : ExecuteMigrationsOnDb d (before ++ m :: after) db =
        ⟨(executeAll d (before ++ m :: after) ⟨some [], db.data⟩).err,
          (executeAll d (before ++ m :: after) ⟨some [], db.data⟩).db,
          .create true :: (executeAll d (before ++ m :: after) ⟨some [], db.data⟩).trace⟩ := by
      simp [ExecuteMigrationsOnDb, createTable, hc, hempty]
    rw [e1] at hfail hex ⊢
    simp only at hfail hex ⊢
    obtain ⟨r1, r2, r3, r4⟩ := executeAll_first_failure d m after before ⟨some [], db.data⟩ hquiet hnd
      (fun m' _ => rfl) (fun e he => hfail e (List.mem_cons_of_mem _ he))
      (by
        obtain ⟨e, he, hbad⟩ := hex
        rcases List.mem_cons.1 he with rfl | he
        · simp [Event.ok] at hbad
        · exact ⟨e, he, hbad⟩)
    refine ⟨r1, r2, r3, ?_⟩
    intro m' hm'
    refine ⟨(r4 m' hm').1, ?_⟩
    intro e he
    rcases List.mem_cons.1 he with rfl | he
    · simp [Event.version]
    · exact (r4 m' hm').2 e he

/-- Witness of C2 as the code has it: versions 1, 2, 3 with version 2 failing. -/
theorem ordered_application_witness :
    (Ascending ([⟨1, ["A"]⟩] ++ (⟨2, ["B", "BAD", "C"]⟩ : dbMigration) :: [⟨3, ["D"]⟩]) ∧
      CatalogLeavesLedger sampleDriver
        ([⟨1, ["A"]⟩] ++ (⟨2, ["B", "BAD", "C"]⟩ : dbMigration) :: [⟨3, ["D"]⟩]) ∧
      emptyLedgerDB.ledger.getD [] = [] ∧
      (ExecuteMigrationsOnDb sampleDriver
          ([⟨1, ["A"]⟩] ++ (⟨2, ["B", "BAD", "C"]⟩ : dbMigration) :: [⟨3, ["D"]⟩]) emptyLedgerDB).trace
        = [.create true, .lookup 1 true, .stmt 1 0 "A" true, .write 1 true true, .lookup 2 true,
            .stmt 2 0 "B" true] ++ .stmt 2 1 "BAD" false :: [.write 2 false true]) ∧
    ((ExecuteMigrationsOnDb sampleDriver
          ([⟨1, ["A"]⟩] ++ (⟨2, ["B", "BAD", "C"]⟩ : dbMigration) :: [⟨3, ["D"]⟩]) emptyLedgerDB).err ≠ none ∧
      (∀ m' ∈ [(⟨1, ["A"]⟩ : dbMigration)],
        (ExecuteMigrationsOnDb sampleDriver
          ([⟨1, ["A"]⟩] ++ (⟨2, ["B", "BAD", "C"]⟩ : dbMigration) :: [⟨3, ["D"]⟩]) emptyLedgerDB).db.status
            m'.Version = some true) ∧
      (ExecuteMigrationsOnDb sampleDriver
          ([⟨1, ["A"]⟩] ++ (⟨2, ["B", "BAD", "C"]⟩ : dbMigration) :: [⟨3, ["D"]⟩]) emptyLedgerDB).db.status
            (⟨2, ["B", "BAD", "C"]⟩ : dbMigration).Version = some false ∧
      (∀ m' ∈ [(⟨3, ["D"]⟩ : dbMigration)],
        (ExecuteMigrationsOnDb sampleDriver
          ([⟨1, ["A"]⟩] ++ (⟨2, ["B", "BAD", "C"]⟩ : dbMigration) :: [⟨3, ["D"]⟩]) emptyLedgerDB).db.status
            m'.Version = none ∧
        ∀ e ∈ (ExecuteMigrationsOnDb sampleDriver
          ([⟨1, ["A"]⟩] ++ (⟨2, ["B", "BAD", "C"]⟩ : dbMigration) :: [⟨3, ["D"]⟩]) emptyLedgerDB).trace,
          e.version ≠ some m'.Version)) :=
  ⟨⟨by unfold Ascending; decide, sampleDriver_leaves _ (by decide), by decide, by decide⟩,
    ordered_application sampleDriver [⟨1, ["A"]⟩] [⟨3, ["D"]⟩] ⟨2, ["B", "BAD", "C"]⟩ emptyLedgerDB
      [.create true, .lookup 1 true, .stmt 1 0 "A" true, .write 1 true true, .lookup 2 true,
        .stmt 2 0 "B" true] [.write 2 false true] 1 "BAD"
      (by unfold Ascending; decide) (sampleDriver_leaves _ (by decide)) (by decide) (by decide)
      (by decide) (by decide)⟩

/-- C2 as stated fails, in two ways.  Versions 1, 2, 3 run against an empty ledger, the first
database call to fail is the second query of version 2, and `ExecuteMigrationsOnDb`
returns an error.  On a full disk the write that is to record the failure is rejected
too, its error is dropped, and the ledger holds no record for version 2.  And when the
first query of version 2 is `DELETE FROM Migrations`, every other database call succeeds
and the ledger holds no record for version 1. -/
theorem ordered_application_unrecorded_failure :
    Ascending failingCatalog ∧ emptyLedgerDB.ledger = some [] ∧
    (ExecuteMigrationsOnDb fullDiskDriver failingCatalog emptyLedgerDB).trace
      = [.create true, .lookup 1 true, .stmt 1 0 "A" true, .write 1 true true, .lookup 2 true,
          .stmt 2 0 "B" true] ++ .stmt 2 1 "BAD" false :: [.write 2 false false] ∧
    (ExecuteMigrationsOnDb fullDiskDriver failingCatalog emptyLedgerDB).err
      = some ⟨"database or disk is full"⟩ ∧
    (ExecuteMigrationsOnDb fullDiskDriver failingCatalog emptyLedgerDB).db.status 1 = some true ∧
    (ExecuteMigrationsOnDb fullDiskDriver failingCatalog emptyLedgerDB).db.status 2 = none ∧
    ¬ ((ExecuteMigrationsOnDb fullDiskDriver failingCatalog emptyLedgerDB).db.status 2 = some false) ∧
    Ascending erasingFailingCatalog ∧
    (ExecuteMigrationsOnDb sampleDriver erasingFailingCatalog emptyLedgerDB).trace
      = [.create true, .lookup 1 true, .stmt 1 0 "A" true, .write 1 true true, .lookup 2 true,
          .stmt 2 0 "DELETE FROM Migrations" true] ++ .stmt 2 1 "BAD" false :: [.write 2 false true] ∧
    (ExecuteMigrationsOnDb sampleDriver erasingFailingCatalog emptyLedgerDB).err
      = some ⟨"syntax error"⟩ ∧
    (ExecuteMigrationsOnDb sampleDriver erasingFailingCatalog emptyLedgerDB).db.ledger
      = some [⟨2, false⟩] ∧
    ¬ ((ExecuteMigrationsOnDb sampleDriver erasingFailingCatalog emptyLedgerDB).db.status 1
      = some true) :=
  ⟨by unfold Ascending failingCatalog; decide, rfl, by decide, by decide, by decide, by decide,
    by decide, by unfold Ascending erasingFailingCatalog; decide, by decide, by decide, by decide,
    by decide⟩

/-- C10 (a unit is executed if and only if it is not yet recorded as succeeded).  When the
ledger lookup finds `success = true`, `Execute` returns no error, leaves the database as
it is and makes no database call besides the lookup.  When the lookup finds no record or
finds `success = false`, the queries `Execute` executes are, in order, the queries of the
unit from the first one on: all of them when no error is returned, and up to the first
failing query otherwise. -/
theorem execute_iff_not_succeeded {δ : Type} (d : Driver δ) (mig : dbMigration) (db : DB δ) :
    (querySuccess d db mig.Version = .ok true →
      (Execute d mig db).err = none ∧ (Execute d mig db).db = db ∧
        (Execute d mig db).trace = [.lookup mig.Version true]) ∧
    ((querySuccess d db mig.Version = .error .ErrNoRows ∨
        querySuccess d db mig.Version = .ok false) →
      executedQueries (Execute d mig db).trace <+: mig.Queries ∧
      (executedQueries (Execute d mig db).trace).head? = mig.Queries.head? ∧
      ((Execute d mig db).err = none → executedQueries (Execute d mig db).trace = mig.Queries) ∧
      ((Execute d mig db).err ≠ none →
        ∃ e ∈ (Execute d mig db).trace, e.isStmt = true ∧ e.ok = false)) := by
  refine ⟨?_, ?_⟩
  · intro h
    rw [Execute_skip d mig db h]
    exact ⟨rfl, rfl, rfl⟩
  · intro h
    have e1 : Execute d mig db = ⟨(attempt d mig db).err, (attempt d mig db).db,
        .lookup mig.Version true :: (attempt d mig db).trace⟩ := by
      unfold Execute
      rcases h with h | h <;> simp only [h]
    rw [e1]
    simp only [executedQueries]
    obtain ⟨h1, h2, h3⟩ := attempt_executed d mig db
    refine ⟨h1, h2, h3, ?_⟩
    intro herr
    unfold attempt at herr ⊢
    cases hr : (queryLoop d mig.Version mig.Queries 0 db).err with
    | none => simp [hr] at herr
    | some x =>
      simp only [hr]
      obtain ⟨⟨e, he, hs, hbad⟩, _⟩ := queryLoop_some d mig.Version mig.Queries 0 db (by simp [hr])
      exact ⟨e, List.mem_cons_of_mem _ he, hs, hbad⟩

/-- Witness of C10: in `halfwayDB` version 1 is recorded as succeeded and skipped, version 2
is recorded as failed and attempted again, version 3 has no record and is attempted. -/
theorem execute_iff_not_succeeded_witness :
    (querySuccess sampleDriver halfwayDB 1 = .ok true ∧
      (Execute sampleDriver ⟨1, ["A"]⟩ halfwayDB).err = none ∧
      (Execute sampleDriver ⟨1, ["A"]⟩ halfwayDB).db = halfwayDB ∧
      (Execute sampleDriver ⟨1, ["A"]⟩ halfwayDB).trace = [.lookup 1 true]) ∧
    (querySuccess sampleDriver halfwayDB 2 = .ok false ∧
      executedQueries (Execute sampleDriver ⟨2, ["B", "C"]⟩ halfwayDB).trace = ["B", "C"]) ∧
    ((querySuccess sampleDriver halfwayDB 3 = .error .ErrNoRows ∨
        querySuccess sampleDriver halfwayDB 3 = .ok false) ∧
      executedQueries (Execute sampleDriver ⟨3, ["D", "E"]⟩ halfwayDB).trace <+: ["D", "E"] ∧
      (executedQueries (Execute sampleDriver ⟨3, ["D", "E"]⟩ halfwayDB).trace).head?
        = ["D", "E"].head? ∧
      ((Execute sampleDriver ⟨3, ["D", "E"]⟩ halfwayDB).err = none →
        executedQueries (Execute sampleDriver ⟨3, ["D", "E"]⟩ halfwayDB).trace = ["D", "E"]) ∧
      ((Execute sampleDriver ⟨3, ["D", "E"]⟩ halfwayDB).err ≠ none →
        ∃ e ∈ (Execute sampleDriver ⟨3, ["D", "E"]⟩ halfwayDB).trace,
          e.isStmt = true ∧ e.ok = false)) :=
  ⟨⟨rfl, (execute_iff_not_succeeded sampleDriver ⟨1, ["A"]⟩ halfwayDB).1 rfl⟩,
    ⟨rfl, ((execute_iff_not_succeeded sampleDriver ⟨2, ["B", "C"]⟩ halfwayDB).2
      (Or.inr rfl)).2.2.1 (by decide)⟩,
    ⟨Or.inl rfl, (execute_iff_not_succeeded sampleDriver ⟨3, ["D", "E"]⟩ halfwayDB).2 (Or.inl rfl)⟩⟩


/-! ### Records are never removed -/

theorem replaceInto_present {δ : Type} (d : Driver δ) (db : DB δ) (v : Nat) (b : Bool) (w : Nat)
    (h : db.status w ≠ none) : (replaceInto d db v b).1.status w ≠ none := by
  by_cases hok : (replaceInto d db v b).2 = none
  · rw [status_replaceInto d db v b hok]
    by_cases hw : w = v
    · simp [hw]
    · simpa [hw] using h
  · rw [replaceInto_failed d db v b hok]
    exact h

theorem queryLoop_present {δ : Type} (d : Driver δ) (v : Nat) (qs : List String) (w : Nat)
    (hq : ∀ q ∈ qs, LeavesLedger d q) :
    ∀ (i : Nat) (db : DB δ), db.status w ≠ none → (queryLoop d v qs i db).db.status w ≠ none := by
  induction qs with
  | nil => intro i db h; exact h
  | cons q qs ih =>
    intro i db h
    cases hx : d.exec q db with
    | mk db' r =>
      have hl := exec_ledger d q db db' r (hq q (List.mem_cons_self _ _)) hx
      have h' : db'.status w ≠ none := by
        rw [status_congr db db' hl w]
        exact h
      cases r with
      | some x =>
        simp only [queryLoop, hx]
        exact replaceInto_present d _ v false w h'
      | none =>
        simp only [queryLoop, hx]
        exact ih (fun q' hq' => hq q' (List.mem_cons_of_mem _ hq')) _ _ h'

theorem attempt_present {δ : Type} (d : Driver δ) (mig : dbMigration) (db : DB δ) (w : Nat)
    (hqs : ∀ q ∈ mig.Queries, LeavesLedger d q)
    (h : db.status w ≠ none) : (attempt d mig db).db.status w ≠ none := by
  have h1 := queryLoop_present d mig.Version mig.Queries w hqs 0 db h
  unfold attempt
  cases hr : (queryLoop d mig.Version mig.Queries 0 db).err with
  | some x => simp only [hr]; exact h1
  | none =>
    simp only [hr]
    exact replaceInto_present d _ _ true w h1

theorem Execute_present {δ : Type} (d : Driver δ) (mig : dbMigration) (db : DB δ) (w : Nat)
    (hqs : ∀ q ∈ mig.Queries, LeavesLedger d q)
    (h : db.status w ≠ none) : (Execute d mig db).db.status w ≠ none := by
  unfold Execute
  cases hq : querySuccess d db mig.Version with
  | error x =>
    cases x with
    | ErrNoRows => exact attempt_present d mig db w hqs h
    | native n => exact h
  | ok b =>
    cases b with
    | true => exact h
    | false => exact attempt_present d mig db w hqs h

theorem executeAll_present {δ : Type} (d : Driver δ) (cat : List dbMigration) (w : Nat)
    (hc : CatalogLeavesLedger d cat) :
    ∀ (db : DB δ), db.status w ≠ none → (executeAll d cat db).db.status w ≠ none := by
  induction cat with
  | nil => intro db h; exact h
  | cons m rest ih =>
    intro db hs
    have h1 := Execute_present d m db w hc.head hs
    by_cases h : (Execute d m db).err = none
    · rw [executeAll_cons_of_none d m rest db h]
      exact ih hc.tail _ h1
    · rw [executeAll_cons_of_some d m rest db h]
      exact h1

theorem status_createTable {δ : Type} (d : Driver δ) (db : DB δ) (w : Nat) :
    (createTable d db).1.status w = db.status w := by
  unfold createTable
  cases d.createFault with
  | some e => rfl
  | none => simp [DB.status]

theorem ExecuteMigrationsOnDb_db {δ : Type} (d : Driver δ) (cat : List dbMigration) (db : DB δ) :
    (ExecuteMigrationsOnDb d cat db).db = (createTable d db).1 ∨
    (ExecuteMigrationsOnDb d cat db).db = (executeAll d cat (createTable d db).1).db := by
  unfold ExecuteMigrationsOnDb
  cases hc : createTable d db with
  | mk db' r =>
    cases r with
    | some e => exact Or.inl rfl
    | none => exact Or.inr rfl

/-! ### Further claims on the migration engine -/

/-- C15, at the failing input.  The catalog of `init` runs against a database without
tables while another connection holds the write lock at every ledger write:
`ExecuteMigrationsOnDb` returns no error although the ledger holds no record for
version 1, and so does `Execute` for a single unit. -/
theorem success_without_record :
    (ExecuteMigrationsOnDb lockedLedgerDriver migrations freshDB).err = none ∧
    (∀ m ∈ migrations,
      (ExecuteMigrationsOnDb lockedLedgerDriver migrations freshDB).db.status m.Version = none) ∧
    (ExecuteMigrationsOnDb lockedLedgerDriver migrations freshDB).db.ledger = some [] ∧
    (ExecuteMigrationsOnDb lockedLedgerDriver migrations freshDB).trace.getLast?
      = some (.write 1 true false) ∧
    (Execute lockedLedgerDriver ⟨1, ["A"]⟩ emptyLedgerDB).err = none ∧
    (Execute lockedLedgerDriver ⟨1, ["A"]⟩ emptyLedgerDB).trace
      = [.lookup 1 true, .stmt 1 0 "A" true, .write 1 true false] ∧
    (Execute lockedLedgerDriver ⟨1, ["A"]⟩ emptyLedgerDB).db.status 1 = none := by
  refine ⟨by decide, by decide, by decide, by decide, by decide, by decide, by decide⟩

/-- C17 (ledger monotonicity), as the code has it.  For every database, engine and catalog
whose queries leave the `Migrations` table as it is, whatever the order of its versions
and whether or not the run fails: a version whose ledger record has `success = true`
before `ExecuteMigrationsOnDb` has a record with `success = true` afterwards, and a
version that has a ledger record before the run has one after it.  (The ledger is keyed
by `version`, so a version has at most one record.) -/
theorem ledger_monotone {δ : Type} (d : Driver δ) (cat : List dbMigration) (db : DB δ)
    (hquiet : CatalogLeavesLedger d cat) :
    (∀ w, db.status w = some true → (ExecuteMigrationsOnDb d cat db).db.status w = some true) ∧
    (∀ w, db.status w ≠ none → (ExecuteMigrationsOnDb d cat db).db.status w ≠ none) := by
  refine ⟨?_, ?_⟩
  · intro w h
    rcases ExecuteMigrationsOnDb_db d cat db with e | e
    · rw [e, status_createTable]
      exact h
    · rw [e]
      exact executeAll_mono d cat w hquiet _ (by rw [status_createTable]; exact h)
  · intro w h
    rcases ExecuteMigrationsOnDb_db d cat db with e | e
    · rw [e, status_createTable]
      exact h
    · rw [e]
      exact executeAll_present d cat w hquiet _ (by rw [status_createTable]; exact h)

/-- Witness of C17: a failing run of a catalog with repeated and unordered versions on a
ledger that records version 1 as succeeded and version 2 as failed. -/
theorem ledger_monotone_witness :
    (CatalogLeavesLedger sampleDriver unorderedCatalog ∧
      halfwayDB.status 1 = some true ∧ halfwayDB.status 2 ≠ none) ∧
    (ExecuteMigrationsOnDb sampleDriver unorderedCatalog halfwayDB).err ≠ none ∧
    (ExecuteMigrationsOnDb sampleDriver unorderedCatalog halfwayDB).db.status 1 = some true ∧
    (ExecuteMigrationsOnDb sampleDriver unorderedCatalog halfwayDB).db.status 2 ≠ none :=
  ⟨⟨sampleDriver_leaves unorderedCatalog (by decide), by decide, by decide⟩, by decide,
    (ledger_monotone sampleDriver unorderedCatalog halfwayDB
      (sampleDriver_leaves unorderedCatalog (by decide))).1 1 (by decide),
    (ledger_monotone sampleDriver unorderedCatalog halfwayDB
      (sampleDriver_leaves unorderedCatalog (by decide))).2 2 (by decide)⟩

/-- C17 as stated fails.  The ledger records version 1 as succeeded and the only unit of the
catalog, version 2, has the query `DELETE FROM Migrations`: the run returns no error and
afterwards the ledger holds the record of version 2 only, the record of version 1 is
gone. -/
theorem ledger_monotone_record_deleted :
    migratedDB.status 1 = some true ∧
    (ExecuteMigrationsOnDb sampleDriver [⟨2, ["DELETE FROM Migrations"]⟩] migratedDB).err = none ∧
    (ExecuteMigrationsOnDb sampleDriver [⟨2, ["DELETE FROM Migrations"]⟩] migratedDB).trace
      = [.create true, .lookup 2 true, .stmt 2 0 "DELETE FROM Migrations" true, .write 2 true true] ∧
    (ExecuteMigrationsOnDb sampleDriver [⟨2, ["DELETE FROM Migrations"]⟩] migratedDB).db.ledger
      = some [⟨2, true⟩] ∧
    (ExecuteMigrationsOnDb sampleDriver [⟨2, ["DELETE FROM Migrations"]⟩] migratedDB).db.status 1
      = none :=
  ⟨by decide, by decide, by decide, by decide, by decide⟩

end Migrate

/-! ## Properties of the user repository -/

namespace Repo

/-! ### Error translation -/

theorem handle_unique_name (m : String) :
    handleSqliteError (.native ⟨"UNIQUE constraint failed: Users.name"⟩) m = .ErrDuplicate := by
  have h : HasPrefix "UNIQUE constraint failed: Users.name" duplicateErrorPrefix = true := by decide
  simp [handleSqliteError, GoError.Error, h]

theorem handle_unique_userid (m : String) :
    handleSqliteError (.native ⟨"UNIQUE constraint failed: Users.userid"⟩) m = .ErrDuplicate := by
  have h : HasPrefix "UNIQUE constraint failed: Users.userid" duplicateErrorPrefix = true := by decide
  simp [handleSqliteError, GoError.Error, h]

/-- C9 (error translation).  For every error `e` of the driver and every default message
`m`: when the text of `e` starts with `UNIQUE constraint failed`, `handleSqliteError`
returns `repo.ErrDuplicate`; otherwise it returns `errors.Wrap(e, m)`, which is not
`repo.ErrDuplicate`, whose text is `m`, a colon and the text of `e`, and whose cause is
`e`. -/
theorem handleSqliteError_spec (e : NativeError) (m : String) :
    (HasPrefix e.msg duplicateErrorPrefix = true →
      handleSqliteError (.native e) m = .ErrDuplicate) ∧
    (HasPrefix e.msg duplicateErrorPrefix = false →
      handleSqliteError (.native e) m = .wrap (.native e) m ∧
      handleSqliteError (.native e) m ≠ .ErrDuplicate ∧
      (handleSqliteError (.native e) m).Error = m ++ ": " ++ e.msg ∧
      (handleSqliteError (.native e) m).Cause = .native e) := by
  refine ⟨?_, ?_⟩
  · intro h
    simp [handleSqliteError, GoError.Error, h]
  · intro h
    have e1 : handleSqliteError (.native e) m = .wrap (.native e) m := by
      simp [handleSqliteError, GoError.Error, h]
    rw [e1]
    exact ⟨rfl, by simp, rfl, rfl⟩

/-- Witness of C9: a violated uniqueness constraint and a missing table. -/
theorem handleSqliteError_spec_witness :
    (HasPrefix (⟨"UNIQUE constraint failed: Users.name"⟩ : NativeError).msg duplicateErrorPrefix = true ∧
      handleSqliteError (.native ⟨"UNIQUE constraint failed: Users.name"⟩) "Failed to insert user"
        = .ErrDuplicate) ∧
    (HasPrefix (⟨"no such table: Users"⟩ : NativeError).msg duplicateErrorPrefix = false ∧
      handleSqliteError (.native ⟨"no such table: Users"⟩) "Failed to insert user"
        = .wrap (.native ⟨"no such table: Users"⟩) "Failed to insert user" ∧
      handleSqliteError (.native ⟨"no such table: Users"⟩) "Failed to insert user" ≠ .ErrDuplicate ∧
      (handleSqliteError (.native ⟨"no such table: Users"⟩) "Failed to insert user").Error
        = "Failed to insert user" ++ ": " ++ (⟨"no such table: Users"⟩ : NativeError).msg ∧
      (handleSqliteError (.native ⟨"no such table: Users"⟩) "Failed to insert user").Cause
        = .native ⟨"no such table: Users"⟩) :=
  ⟨⟨by decide, (handleSqliteError_spec ⟨"UNIQUE constraint failed: Users.name"⟩
      "Failed to insert user").1 (by decide)⟩,
    ⟨by decide, (handleSqliteError_spec ⟨"no such table: Users"⟩ "Failed to insert user").2
      (by decide)⟩⟩

/-! ### Create -/

theorem Create_ok_iff (lower : String → String) (uuid now : String) (s : Store) (u : User) :
    (Create lower uuid now s u).err = none ↔
      ∃ rows, s = .table rows ∧ (∀ r ∈ rows, r.name ≠ lower u.Name) ∧
        (∀ r ∈ rows, r.userid ≠ uuid) := by
  cases s with
  | unavailable e => simp [Create, execInsert]
  | table rows =>
    simp only [Create, execInsert, Store.table.injEq, exists_eq_left']
    cases h1 : rows.any (fun r => r.name == lower u.Name) with
    | true =>
      simp only [if_true, reduceCtorEq, false_iff, not_and]
      simp only [List.any_eq_true, beq_iff_eq] at h1
      obtain ⟨r, hr, hn⟩ := h1
      intro hall
      exact absurd hn (hall r hr)
    | false =>
      cases h2 : rows.any (fun r => r.userid == uuid) with
      | true =>
        simp only [if_true, Bool.false_eq_true, if_false, reduceCtorEq, false_iff, not_and]
        simp only [List.any_eq_true, beq_iff_eq] at h2
        obtain ⟨r, hr, hn⟩ := h2
        intro _ hall
        exact absurd hn (hall r hr)
      | false =>
        simp only [Bool.false_eq_true, if_false, true_iff]
        rw [List.any_eq_false] at h1 h2
        exact ⟨fun r hr => by simpa using h1 r hr, fun r hr => by simpa using h2 r hr⟩

theorem Create_ok (lower : String → String) (uuid now : String) (rows : List UserRow) (u : User)
    (hname : ∀ r ∈ rows, r.name ≠ lower u.Name) (hfresh : ∀ r ∈ rows, r.userid ≠ uuid) :
    Create lower uuid now (.table rows) u =
      ⟨none, { u with ID := uuid, Name := lower u.Name },
        .table (rows ++ [⟨uuid, lower u.Name, u.PasswordHash, u.FullName, now, now⟩])⟩ := by
  have h1 : rows.any (fun r => r.name == lower u.Name) = false := by
    rw [List.any_eq_false]
    intro r hr
    simpa using hname r hr
  have h2 : rows.any (fun r => r.userid == uuid) = false := by
    rw [List.any_eq_false]
    intro r hr
    simpa using hfresh r hr
  simp [Create, execInsert, h1, h2]

/-- C3 (create uniqueness).  When two names are equal after lowercasing and `Create` of a
user with the first name returned no error, `Create` of a user with the second name on
the resulting store returns `repo.ErrDuplicate` and leaves the store as it was: the same
rows, among them the unchanged row of the first user. -/
theorem create_uniqueness (lower : String → String) (uuid₁ now₁ uuid₂ now₂ : String) (s : Store)
    (u₁ u₂ : User) (hname : lower u₁.Name = lower u₂.Name)
    (hfirst : (Create lower uuid₁ now₁ s u₁).err = none) :
    (Create lower uuid₂ now₂ (Create lower uuid₁ now₁ s u₁).store u₂).err = some .ErrDuplicate ∧
    (Create lower uuid₂ now₂ (Create lower uuid₁ now₁ s u₁).store u₂).store
      = (Create lower uuid₁ now₁ s u₁).store ∧
    (⟨uuid₁, lower u₁.Name, u₁.PasswordHash, u₁.FullName, now₁, now₁⟩ : UserRow)
      ∈ (Create lower uuid₂ now₂ (Create lower uuid₁ now₁ s u₁).store u₂).store.rows := by
  obtain ⟨rows, rfl, h1, h2⟩ := (Create_ok_iff lower uuid₁ now₁ s u₁).1 hfirst
  rw [Create_ok lower uuid₁ now₁ rows u₁ h1 h2]
  have h3 : (rows ++ [(⟨uuid₁, lower u₁.Name, u₁.PasswordHash, u₁.FullName, now₁, now₁⟩ : UserRow)]).any
      (fun r => r.name == lower u₂.Name) = true := by
    simp [hname]
  simp only [Create, execInsert, h3, if_true, handle_unique_name, Store.rows]
  simp

/-- Witness of C3: `Alice`, then `alice`, on an empty table. -/
theorem create_uniqueness_witness :
    (asciiLower "Alice" = asciiLower "alice" ∧
      (Create asciiLower "id-1" "t1" (.table []) ⟨"x", "Alice", "h", "Alice A.", "", ""⟩).err = none) ∧
    ((Create asciiLower "id-2" "t2"
        (Create asciiLower "id-1" "t1" (.table []) ⟨"x", "Alice", "h", "Alice A.", "", ""⟩).store
        ⟨"", "alice", "", "Blah", "", ""⟩).err = some .ErrDuplicate ∧
      (Create asciiLower "id-2" "t2"
        (Create asciiLower "id-1" "t1" (.table []) ⟨"x", "Alice", "h", "Alice A.", "", ""⟩).store
        ⟨"", "alice", "", "Blah", "", ""⟩).store
        = (Create asciiLower "id-1" "t1" (.table []) ⟨"x", "Alice", "h", "Alice A.", "", ""⟩).store ∧
      (⟨"id-1", asciiLower (⟨"x", "Alice", "h", "Alice A.", "", ""⟩ : User).Name,
          (⟨"x", "Alice", "h", "Alice A.", "", ""⟩ : User).PasswordHash,
          (⟨"x", "Alice", "h", "Alice A.", "", ""⟩ : User).FullName, "t1", "t1"⟩ : UserRow)
        ∈ (Create asciiLower "id-2" "t2"
          (Create asciiLower "id-1" "t1" (.table []) ⟨"x", "Alice", "h", "Alice A.", "", ""⟩).store
          ⟨"", "alice", "", "Blah", "", ""⟩).store.rows) :=
  ⟨⟨by decide, by decide⟩,
    create_uniqueness asciiLower "id-1" "t1" "id-2" "t2" (.table [])
      ⟨"x", "Alice", "h", "Alice A.", "", ""⟩ ⟨"", "alice", "", "Blah", "", ""⟩
      (by decide) (by decide)⟩

/-- C6 (create assigns the id and normalises the name).  On a table in which neither the
lowercased name nor the generated identifier occurs, `Create` returns no error, sets
`u.ID` to the generated identifier and `u.Name` to its lowercase form, leaves the other
fields of `u`, and appends exactly one row, which holds the new `u.ID`, the lowercased
name, `u.PasswordHash` and `u.FullName`; nothing of this depends on the `ID` the caller
supplied. -/
theorem create_assigns_id (lower : String → String) (uuid now : String) (rows : List UserRow)
    (u : User) (hname : ∀ r ∈ rows, r.name ≠ lower u.Name) (hfresh : ∀ r ∈ rows, r.userid ≠ uuid) :
    (Create lower uuid now (.table rows) u).err = none ∧
    (Create lower uuid now (.table rows) u).user.ID = uuid ∧
    (Create lower uuid now (.table rows) u).user.Name = lower u.Name ∧
    (Create lower uuid now (.table rows) u).user.PasswordHash = u.PasswordHash ∧
    (Create lower uuid now (.table rows) u).user.FullName = u.FullName ∧
    (Create lower uuid now (.table rows) u).store
      = .table (rows ++ [⟨(Create lower uuid now (.table rows) u).user.ID, lower u.Name,
          u.PasswordHash, u.FullName, now, now⟩]) ∧
    (Create lower uuid now (.table rows) u).store.rows.length = rows.length + 1 ∧
    (∀ id : String, Create lower uuid now (.table rows) { u with ID := id }
      = Create lower uuid now (.table rows) u) := by
  have hid : ∀ id : String, Create lower uuid now (.table rows) { u with ID := id }
      = Create lower uuid now (.table rows) u := fun _ => rfl
  rw [Create_ok lower uuid now rows u hname hfresh] at hid ⊢
  exact ⟨rfl, rfl, rfl, rfl, rfl, rfl, by simp [Store.rows], hid⟩

/-- Witness of C6: the user of `TestCreate`, with a caller-supplied identifier. -/
theorem create_assigns_id_witness :
    ((∀ r ∈ twoUsers.rows, r.name ≠ asciiLower "teDdy") ∧ (∀ r ∈ twoUsers.rows, r.userid ≠ "id-3")) ∧
    (Create asciiLower "id-3" "t3" twoUsers
        ⟨"youshouldnotseeme", "teDdy", "h3", "Teddy Tester", "", ""⟩).user.ID = "id-3" ∧
    (Create asciiLower "id-3" "t3" twoUsers
        ⟨"youshouldnotseeme", "teDdy", "h3", "Teddy Tester", "", ""⟩).user.Name = "teddy" ∧
    (Create asciiLower "id-3" "t3" twoUsers
        ⟨"youshouldnotseeme", "teDdy", "h3", "Teddy Tester", "", ""⟩).store.rows.length = 3 :=
  ⟨⟨by decide, by decide⟩,
    (create_assigns_id asciiLower "id-3" "t3" twoUsers.rows
      ⟨"youshouldnotseeme", "teDdy", "h3", "Teddy Tester", "", ""⟩ (by decide) (by decide)).2.1,
    by decide, by decide⟩

/-! ### Exists -/

theorem countP_eq_zero_iff (rows : List UserRow) (id : String) :
    rows.countP (fun r => r.userid == id) = 0 ↔ ∀ r ∈ rows, r.userid ≠ id := by
  rw [List.countP_eq_zero]
  simp

theorem Exists_table (rows : List UserRow) (id : String) :
    Exists (.table rows) id = (decide (∃ r ∈ rows, r.userid = id), none) := by
  simp only [Exists, getCount]
  by_cases h : ∃ r ∈ rows, r.userid = id
  · have : rows.countP (fun r => r.userid == id) ≠ 0 := by
      rw [Ne, countP_eq_zero_iff]
      push_neg
      exact h
    simp [h, this]
  · have : rows.countP (fun r => r.userid == id) = 0 := by
      rw [countP_eq_zero_iff]
      push_neg at h
      exact h
    simp [h, this]

/-- C8 (`Exists` is the existence predicate).  When the count query runs without an error
of the driver, `Exists` returns `(true, nil)` if some row has this `userid` and
`(false, nil)` if none has; it returns no error for an absent id. -/
theorem exists_is_predicate (s : Store) (id : String) (hq : ∃ n, getCount id s = .ok n) :
    ((∃ r ∈ s.rows, r.userid = id) → Exists s id = (true, none)) ∧
    ((∀ r ∈ s.rows, r.userid ≠ id) → Exists s id = (false, none)) ∧
    (Exists s id = (true, none) ↔ ∃ r ∈ s.rows, r.userid = id) ∧
    (Exists s id).2 = none := by
  cases s with
  | unavailable e =>
    obtain ⟨n, hn⟩ := hq
    simp [getCount] at hn
  | table rows =>
    have key := Exists_table rows id
    simp only [Store.rows]
    refine ⟨?_, ?_, ?_, ?_⟩
    · intro h
      rw [key]
      simp [h]
    · intro h
      rw [key]
      have : ¬ ∃ r ∈ rows, r.userid = id := by
        push_neg
        exact h
      simp [this]
    · rw [key]
      simp
    · rw [key]

/-- Witness of C8: an id of the table and an id that is not in it. -/
theorem exists_is_predicate_witness :
    (∃ n, getCount "id-2" twoUsers = .ok n) ∧ Exists twoUsers "id-2" = (true, none) ∧
    Exists twoUsers "Bob" = (false, none) :=
  ⟨⟨1, rfl⟩,
    (exists_is_predicate twoUsers "id-2" ⟨1, rfl⟩).1 ⟨⟨"id-2", "bob", "h2", "Bob B.", "t0", "t0"⟩,
      by decide, rfl⟩,
    (exists_is_predicate twoUsers "Bob" ⟨0, rfl⟩).2.1 (by decide)⟩

theorem Exists_absent (s : Store) (id : String) (h : ∀ r ∈ s.rows, r.userid ≠ id) :
    (Exists s id).1 = false := by
  cases s with
  | unavailable e => rfl
  | table rows =>
    have : rows.countP (fun r => r.userid == id) = 0 := (countP_eq_zero_iff rows id).2 h
    simp [Exists, getCount, this]

/-! ### Update -/

/-- C4 (update on a missing id).  When no row of the `Users` table has the `ID` of `u`,
`Update` returns `repo.ErrNotExisting` and leaves the store, hence every row, as it
was. -/
theorem update_missing_id (lower : String → String) (today : String) (s : Store) (u : User)
    (h : ∀ r ∈ s.rows, r.userid ≠ u.ID) :
    (Update lower today s u).err = some .ErrNotExisting ∧ (Update lower today s u).store = s := by
  have h1 := Exists_absent s u.ID h
  unfold Update
  simp only
  cases hx : Exists s u.ID with
  | mk found err =>
    rw [hx] at h1
    simp only at h1
    subst h1
    simp

/-- Witness of C4: the update of `TestUpdate` with the id `IDoNotExist`. -/
theorem update_missing_id_witness :
    (∀ r ∈ twoUsers.rows, r.userid ≠ (⟨"IDoNotExist", "yyy", "h", "xxx", "", ""⟩ : User).ID) ∧
    (Update asciiLower "d1" twoUsers ⟨"IDoNotExist", "yyy", "h", "xxx", "", ""⟩).err
      = some .ErrNotExisting ∧
    (Update asciiLower "d1" twoUsers ⟨"IDoNotExist", "yyy", "h", "xxx", "", ""⟩).store = twoUsers :=
  ⟨by decide, update_missing_id asciiLower "d1" twoUsers ⟨"IDoNotExist", "yyy", "h", "xxx", "", ""⟩
    (by decide)⟩

theorem Exists_present (rows : List UserRow) (id : String) (h : ∃ r ∈ rows, r.userid = id) :
    Exists (.table rows) id = (true, none) := by
  rw [Exists_table]
  simp [h]

theorem updated_names_nodup (rows : List UserRow) (id name fullName passwordHash today : String)
    (hwf : (Store.table rows).WF) (hname : ∀ r ∈ rows, r.userid ≠ id → r.name ≠ name) :
    ((rows.map (fun r =>
        if r.userid = id then
          { r with name := name, fullName := fullName, passwordHash := passwordHash,
                   updatedAt := today }
        else r)).map (fun r => r.name)).Nodup := by
  obtain ⟨hid, hnm⟩ := hwf
  simp only [Store.rows] at hid hnm
  rw [List.map_map]
  refine List.Nodup.map_on ?_ (List.Nodup.of_map _ hnm)
  intro x hx y hy hxy
  simp only [Function.comp] at hxy
  by_cases h1 : x.userid = id
  · by_cases h2 : y.userid = id
    · exact List.inj_on_of_nodup_map hid hx hy (h1.trans h2.symm)
    · simp only [h1, h2, if_true, if_false] at hxy
      exact absurd hxy.symm (hname y hy h2)
  · by_cases h2 : y.userid = id
    · simp only [h1, h2, if_true, if_false] at hxy
      exact absurd hxy (hname x hx h1)
    · simp only [h1, h2, if_false] at hxy
      exact List.inj_on_of_nodup_map hnm hx hy hxy

/-- C7 (update of an existing user).  On a table that satisfies its constraints, when a row
has the `ID` of `u` and no other row has the lowercased name, `Update` returns no error;
afterwards the row with that `userid` holds the lowercased name, `u.FullName` and
`u.PasswordHash`, the column `userid` is as before, and every other row is unchanged. -/
theorem update_existing (lower : String → String) (today : String) (rows : List UserRow) (u : User)
    (hwf : (Store.table rows).WF) (hex : ∃ r ∈ rows, r.userid = u.ID)
    (hname : ∀ r ∈ rows, r.userid ≠ u.ID → r.name ≠ lower u.Name) :
    (Update lower today (.table rows) u).err = none ∧
    (Update lower today (.table rows) u).store = .table (rows.map (fun r =>
      if r.userid = u.ID then
        { r with name := lower u.Name, fullName := u.FullName, passwordHash := u.PasswordHash,
                 updatedAt := today }
      else r)) ∧
    (∃ r ∈ (Update lower today (.table rows) u).store.rows, r.userid = u.ID) ∧
    (∀ r ∈ (Update lower today (.table rows) u).store.rows, r.userid = u.ID →
      r.name = lower u.Name ∧ r.fullName = u.FullName ∧ r.passwordHash = u.PasswordHash) ∧
    (Update lower today (.table rows) u).store.rows.map (fun r => r.userid)
      = rows.map (fun r => r.userid) ∧
    (∀ r, r.userid ≠ u.ID → (r ∈ (Update lower today (.table rows) u).store.rows ↔ r ∈ rows)) := by
  have hnd := updated_names_nodup rows u.ID (lower u.Name) u.FullName u.PasswordHash today hwf hname
  have e1 : Update lower today (.table rows) u = ⟨none, { u with Name := lower u.Name },
      .table (rows.map (fun r =>
        if r.userid = u.ID then
          { r with name := lower u.Name, fullName := u.FullName, passwordHash := u.PasswordHash,
                   updatedAt := today }
        else r))⟩ := by
    simp only [Update, Exists_present rows u.ID hex, execUpdate]
    rw [if_pos hnd]
    rfl
  rw [e1]
  refine ⟨rfl, rfl, ?_, ?_, ?_, ?_⟩
  · dsimp only [Store.rows]
    obtain ⟨r, hr, hid⟩ := hex
    refine ⟨_, List.mem_map.2 ⟨r, hr, rfl⟩, ?_⟩
    simp [hid]
  · dsimp only [Store.rows]
    intro r' hr' hid
    obtain ⟨r, _, rfl⟩ := List.mem_map.1 hr'
    by_cases h : r.userid = u.ID
    · simp [h]
    · simp [h] at hid
  · dsimp only [Store.rows]
    rw [List.map_map]
    refine List.map_congr_left ?_
    intro r _
    by_cases h : r.userid = u.ID <;> simp [h]
  · dsimp only [Store.rows]
    intro r' hne
    constructor
    · intro hr'
      obtain ⟨r, hr, rfl⟩ := List.mem_map.1 hr'
      by_cases h : r.userid = u.ID
      · simp [h] at hne
      · simpa [h] using hr
    · intro hr'
      exact List.mem_map.2 ⟨r', hr', by simp [hne]⟩

/-- Witness of C7: renaming the second of two users. -/
theorem update_existing_witness :
    (twoUsers.WF ∧ (∃ r ∈ twoUsers.rows, r.userid = "id-2") ∧
      (∀ r ∈ twoUsers.rows, r.userid ≠ "id-2" → r.name ≠ asciiLower "Update_1")) ∧
    (Update asciiLower "d1" twoUsers ⟨"id-2", "Update_1", "h9", "Update_1", "", ""⟩).err = none ∧
    (Update asciiLower "d1" twoUsers ⟨"id-2", "Update_1", "h9", "Update_1", "", ""⟩).store
      = .table [⟨"id-1", "alice", "h1", "Alice A.", "t0", "t0"⟩,
          ⟨"id-2", "update_1", "h9", "Update_1", "t0", "d1"⟩] :=
  ⟨⟨by unfold Store.WF; decide, by decide, by decide⟩,
    (update_existing asciiLower "d1" twoUsers.rows ⟨"id-2", "Update_1", "h9", "Update_1", "", ""⟩
      (by unfold Store.WF; decide) (by decide) (by decide)).1,
    by decide⟩

/-! ### Delete -/

theorem length_filter_of_nodup (rows : List UserRow) (id : String)
    (hnd : (rows.map (fun r => r.userid)).Nodup) (hex : ∃ r ∈ rows, r.userid = id) :
    (rows.filter (fun r => r.userid != id)).length + 1 = rows.length := by
  induction rows with
  | nil => simp at hex
  | cons r rs ih =>
    simp only [List.map_cons, List.nodup_cons, List.mem_map, not_exists, not_and] at hnd
    by_cases h : r.userid = id
    · have hall : ∀ x ∈ rs, (x.userid != id) = true := by
        intro x hx
        have := hnd.1 x hx
        simpa [h] using this
      have : List.filter (fun r => r.userid != id) rs = rs := List.filter_eq_self.2 hall
      simp [List.filter_cons, h, this]
    · have hex' : ∃ x ∈ rs, x.userid = id := by
        obtain ⟨x, hx, hid⟩ := hex
        rcases List.mem_cons.1 hx with rfl | hx
        · exact absurd hid h
        · exact ⟨x, hx, hid⟩
      simp [List.filter_cons, h, ih hnd.2 hex']

/-- C5 (delete postcondition and idempotence).  When the engine executes the delete
statement without error, `Delete` returns no error and the table afterwards is the
previous table without the rows of that `userid`; under the primary key this is one row
less when the id existed.  When no row has the id, the store and its row count are
unchanged.  A second `Delete` of the same id leaves the store of the first one and, when
the first returned no error, returns no error either. -/
theorem delete_postcondition (s : Store) (id : String) :
    ((execDelete id s).2 = none →
      (Delete s id).1 = none ∧
      (Delete s id).2 = .table (s.rows.filter (fun r => r.userid != id)) ∧
      (∀ r, r ∈ (Delete s id).2.rows ↔ r ∈ s.rows ∧ r.userid ≠ id) ∧
      (s.WF → (∃ r ∈ s.rows, r.userid = id) → (Delete s id).2.rows.length + 1 = s.rows.length) ∧
      (Delete (Delete s id).2 id).1 = none) ∧
    ((∀ r ∈ s.rows, r.userid ≠ id) →
      (Delete s id).2 = s ∧ (Delete s id).2.rows.length = s.rows.length) ∧
    (Delete (Delete s id).2 id).2 = (Delete s id).2 := by
  cases s with
  | unavailable e =>
    simp [Delete, execDelete]
  | table rows =>
    have e1 : Delete (.table rows) id = (none, .table (rows.filter (fun r => r.userid != id))) := rfl
    have e2 : ∀ rows', Delete (.table rows') id
        = (none, .table (rows'.filter (fun r => r.userid != id))) := fun _ => rfl
    have e3 : List.filter (fun r => r.userid != id) (List.filter (fun r => r.userid != id) rows)
        = List.filter (fun r => r.userid != id) rows := by
      rw [List.filter_filter]
      simp
    rw [e1]
    refine ⟨fun _ => ⟨rfl, rfl, ?_, ?_, rfl⟩, ?_, ?_⟩
    · intro r
      simp [Store.rows, List.mem_filter]
    · intro hwf hex
      exact length_filter_of_nodup rows id hwf.1 hex
    · intro h
      have : List.filter (fun r => r.userid != id) rows = rows :=
        List.filter_eq_self.2 (fun r hr => by simpa using h r hr)
      dsimp only
      rw [this]
      exact ⟨rfl, rfl⟩
    · dsimp only
      rw [e2, e3]

/-- Witness of C5: deleting an existing user, and deleting an id that is not in the table. -/
theorem delete_postcondition_witness :
    ((execDelete "id-1" twoUsers).2 = none ∧ twoUsers.WF ∧ (∃ r ∈ twoUsers.rows, r.userid = "id-1")) ∧
    (Delete twoUsers "id-1").2.rows.length + 1 = twoUsers.rows.length ∧
    (∀ r ∈ twoUsers.rows, r.userid ≠ "IDoNotExist") ∧
    ((Delete twoUsers "IDoNotExist").2 = twoUsers ∧
      (Delete twoUsers "IDoNotExist").2.rows.length = twoUsers.rows.length) :=
  ⟨⟨rfl, by unfold Store.WF; decide, by decide⟩,
    ((delete_postcondition twoUsers "id-1").1 rfl).2.2.2.1 (by unfold Store.WF; decide) (by decide),
    by decide, (delete_postcondition twoUsers "IDoNotExist").2.1 (by decide)⟩


/-! ### Passwords -/

/-- What `user.go` adds to the library: `SetPassword` stores the text the library returns
in `PasswordHash` and changes no other field, and `CheckPassword` hands that text and the
password to the library. -/
theorem CheckPassword_SetPassword (generate : String → Except GoError String)
    (compare : String → String → Option GoError) (u : User) (p q hash : String)
    (h : generate p = .ok hash) :
    (SetPassword generate u p).1 = none ∧
    (SetPassword generate u p).2 = { u with PasswordHash := hash } ∧
    CheckPassword compare (SetPassword generate u p).2 q = compare hash q := by
  simp [SetPassword, CheckPassword, h]

/-! ### The lookups that are not implemented -/

/-- C11, at every input.  `GetByID` takes a `uint`, ignores it and the database, and returns
no user and the error `Not implemented`: for an existing user it returns an error, and
for a missing one the error is not `repo.ErrNotExisting`. -/
theorem getByID_not_implemented (s : Store) (id : Nat) :
    GetByID s id = (none, some (.errorf "Not implemented")) ∧
    (GetByID s id).2 ≠ none ∧
    (GetByID s id).2 ≠ some .ErrNotExisting := by
  refine ⟨rfl, ?_, ?_⟩ <;> simp [GetByID]

/-- C13, at the failing input.  A user named `BoB` is created on an empty table and gets
the identifier `id-1` and the name `bob`; `GetByCredentials` with `bob` and the password
returns no user and the error `Not implemented`, as it does on every input. -/
theorem getByCredentials_not_implemented :
    (Create asciiLower "id-1" "t1" (.table []) ⟨"", "BoB", "hash-of-secret", "Bob", "", ""⟩).err = none ∧
    (Create asciiLower "id-1" "t1" (.table []) ⟨"", "BoB", "hash-of-secret", "Bob", "", ""⟩).store
      = .table [⟨"id-1", "bob", "hash-of-secret", "Bob", "t1", "t1"⟩] ∧
    GetByCredentials
        (Create asciiLower "id-1" "t1" (.table []) ⟨"", "BoB", "hash-of-secret", "Bob", "", ""⟩).store
        (asciiLower "BoB") "secret"
      = (none, some (.errorf "Not implemented")) ∧
    (∀ (s : Store) (username password : String),
      GetByCredentials s username password = (none, some (.errorf "Not implemented"))) :=
  ⟨by decide, by decide, rfl, fun _ _ _ => rfl⟩

/-- C14, at the failing input.  On the ten users of the tests both `Find("", 0, 5)` and
`Find("", 5, 5)` return no list and the error `Not implemented`, as `Find` does on every
input. -/
theorem find_not_implemented :
    tenUsers.rows.length = 10 ∧ tenUsers.WF ∧
    Find tenUsers "" 0 5 = (none, some (.errorf "Not implemented")) ∧
    Find tenUsers "" 5 5 = (none, some (.errorf "Not implemented")) ∧
    (∀ (s : Store) (search : String) (offset limit : Nat),
      Find s search offset limit = (none, some (.errorf "Not implemented"))) :=
  ⟨by decide, by unfold Store.WF; decide, rfl, rfl, fun _ _ _ _ => rfl⟩

/-! ### A failing existence check inside Update -/

/-- C16, at every failing input.  On a store that rejects the existence query with the error
`e`, `Exists` returns `false` together with the translated error, and `Update` returns
`repo.ErrNotExisting` instead of that error; the store is left as it was. -/
theorem update_masks_storage_failure (lower : String → String) (today : String) (e : NativeError)
    (u : User) :
    Exists (.unavailable e) u.ID
      = (false, some (handleSqliteError (.native e) "Failed to check for user existence")) ∧
    (Update lower today (.unavailable e) u).err = some .ErrNotExisting ∧
    (Update lower today (.unavailable e) u).store = .unavailable e := by
  refine ⟨rfl, ?_, ?_⟩ <;> simp [Update, Exists, getCount]

/-- C16, on a store without the `Users` table: the existence query fails with
`no such table: Users`, which is no uniqueness violation, `Exists` wraps it, and `Update`
returns `repo.ErrNotExisting`, which neither is that error nor has the native error as
its cause. -/
theorem update_masks_missing_table :
    HasPrefix "no such table: Users" duplicateErrorPrefix = false ∧
    (Exists unmigratedStore "id-1").2
      = some (.wrap (.native ⟨"no such table: Users"⟩) "Failed to check for user existence") ∧
    (Update asciiLower "d1" unmigratedStore ⟨"id-1", "Alice", "h", "Alice A.", "", ""⟩).err
      = some .ErrNotExisting ∧
    GoError.ErrNotExisting.Cause ≠ .native ⟨"no such table: Users"⟩ :=
  ⟨by decide, by decide, by decide, by decide⟩

end Repo

end Micasa
